import Mathlib

/-!
Verification of the curve-generation core of `src/disk_generator.py`
(cycloidal-disk-generator).

The development shallowly embeds the four core functions of the module:

* `_fmt_num`  — `format(float(x), ".12g")`, modelled over `ℚ` by `gfmt`
  (round to 12 significant decimal digits, `%g`-style rendering);
* `make_sw_equations` — the SolidWorks equation builder (text with baked
  numeric literals);
* `sample_curve` — the numeric sampler over `ℝ`, with numpy's
  `linspace`, `isclose` and `sign` spelled out;
* `validate_inputs` — the input validator over `ℚ`.

Machine floats are modelled as exact rationals and numpy float arrays as
functions `ℕ → ℝ`; this is the usual idealisation of float arithmetic by
real/rational arithmetic.  Internal arrays of `sample_curve` (`denom`,
`denom_safe`, `phi`) are exposed as fields of the result structure so that
theorems can speak about the epsilon substitution.
-/

namespace DiskGen

/-! ## The expression formatter `_fmt_num` (Python `format(float(x), ".12g")`)

A fueled base-10 digit extraction (least significant digit first) is used so
that all formatter computations reduce in the kernel. -/

/-- Base-10 digits of `n`, least significant first, computed with explicit
fuel (`digitsFuel fuel n = Nat.digits 10 n` whenever `n < 10 ^ fuel`). -/
def digitsFuel : ℕ → ℕ → List ℕ
  | 0, _ => []
  | fuel + 1, n => if n = 0 then [] else n % 10 :: digitsFuel fuel (n / 10)

/-- Number of base-10 digits of `n` (`0` for `n = 0`). -/
def numDigits (n : ℕ) : ℕ := (digitsFuel n n).length

/-- Decimal exponent of a rational: the unique `E` with
`10 ^ E ≤ |q| < 10 ^ (E + 1)` for `q ≠ 0`, and `0` for `q = 0`. -/
def decExp (q : ℚ) : ℤ :=
  if q = 0 then 0
  else
    let c : ℤ := (numDigits q.num.natAbs : ℤ) - (numDigits q.den : ℤ)
    if (10 : ℚ) ^ c ≤ |q| then c else c - 1

/-- The `p`-significant-digit mantissa of `q`: `|q|` scaled to `p` integer
digits and rounded to the nearest integer. -/
def mantissa (p : ℕ) (q : ℚ) : ℤ :=
  round (|q| * (10 : ℚ) ^ (((p : ℤ) - 1) - decExp q))

/-- Structured result of `%g` formatting: sign, significant digits (most
significant first, trailing zeros stripped), decimal exponent (the value is
`±d₁.d₂⋯dₖ · 10 ^ exp`) and whether scientific notation is used. -/
structure GFmt where
  neg : Bool
  digits : List ℕ
  exp : ℤ
  sci : Bool
deriving Repr, DecidableEq

/-- Natural number denoted by a digit list, most significant digit first. -/
def digitsVal (ds : List ℕ) : ℕ := ds.foldl (fun a d => 10 * a + d) 0

/-- Rational value denoted by a `GFmt` (what a standard decimal parser
returns for the rendered string). -/
def GFmt.val (f : GFmt) : ℚ :=
  (if f.neg then -1 else 1) * (digitsVal f.digits : ℚ)
    * (10 : ℚ) ^ (f.exp - ((f.digits.length : ℤ) - 1))

/-- Python `format(q, "." ++ toString p ++ "g")`, structured: round `q` to
`p` significant decimal digits, strip trailing zeros, and choose fixed
notation when `-4 ≤ exp < p`, scientific otherwise. -/
def gfmt (p : ℕ) (q : ℚ) : GFmt :=
  if q = 0 then ⟨false, [0], 0, false⟩
  else
    let E := decExp q
    let m : ℕ := (mantissa p q).toNat
    let m' : ℕ := if m = 10 ^ p then 10 ^ (p - 1) else m
    let E' : ℤ := if m = 10 ^ p then E + 1 else E
    ⟨q < 0, ((digitsFuel p m').dropWhile (· == 0)).reverse, E',
      decide (E' < -4 ∨ (p : ℤ) ≤ E')⟩

/-- Character of a decimal digit. -/
def digitChar10 (d : ℕ) : Char := Char.ofNat (48 + d)

/-- Decimal string (as characters) of a natural number. -/
def natChars (n : ℕ) : List Char :=
  if n = 0 then ['0'] else ((digitsFuel n n).reverse).map digitChar10

/-- A run of `n` zero characters. -/
def zeroChars (n : ℕ) : List Char := List.replicate n '0'

/-- Fixed-notation rendering of digits `d₁.d₂⋯dₖ · 10 ^ E`. -/
def renderFixed (ds : List ℕ) (E : ℤ) : List Char :=
  if E < 0 then
    '0' :: '.' :: (zeroChars (E.natAbs - 1) ++ ds.map digitChar10)
  else if ds.length ≤ E.toNat + 1 then
    ds.map digitChar10 ++ zeroChars (E.toNat + 1 - ds.length)
  else
    (ds.take (E.toNat + 1)).map digitChar10
      ++ '.' :: (ds.drop (E.toNat + 1)).map digitChar10

/-- Exponent digits of `%e` notation are padded to at least two digits. -/
def padExp (l : List Char) : List Char :=
  if l.length < 2 then '0' :: l else l

/-- Scientific-notation rendering of digits `d₁.d₂⋯dₖ · 10 ^ E`. -/
def renderSci (ds : List ℕ) (E : ℤ) : List Char :=
  (match ds with
   | [] => ['0']
   | d :: rest =>
     digitChar10 d :: (if rest = [] then [] else '.' :: rest.map digitChar10))
  ++ 'e' :: (if E < 0 then '-' else '+') :: padExp (natChars E.natAbs)

/-- Rendering of a `GFmt` to characters. -/
def GFmt.render (f : GFmt) : List Char :=
  (if f.neg then ['-'] else []) ++
    (if f.sci then renderSci f.digits f.exp else renderFixed f.digits f.exp)

/-- Embedding of `_fmt_num(x) = format(float(x), ".12g")`, as characters. -/
def fmtNumChars (q : ℚ) : List Char := (gfmt 12 q).render

/-- Embedding of `_fmt_num(x) = format(float(x), ".12g")`. -/
def _fmt_num (q : ℚ) : String := String.mk (fmtNumChars q)

/-! ## The equation builder `make_sw_equations` -/

/-- Decimal string (as characters) of an integer, `str(n)` of Python. -/
def intChars (n : ℤ) : List Char :=
  (if n < 0 then ['-'] else []) ++ natChars n.natAbs

/-- Characters of the `x_expr` built by `make_sw_equations`:

    f"({Rp}*cos(t)) - "
    f"({rr}*cos(t+atn(sin({N_}*t)/({RpeN}-cos({N_}*t))))) - "
    f"({ee}*cos({Nn}*t))"

with `Rp, ee, rr, N_, RpeN` the `_fmt_num`-formatted values of
`R_p, e, r, 1 - N, R_p/(e*N)` and `Nn = str(int(N))`. -/
def xExprChars (R_p e r : ℚ) (N : ℤ) : List Char :=
  "(".data ++ (fmtNumChars R_p ++ ("*cos(t)) - (".data ++ (fmtNumChars r
    ++ ("*cos(t+atn(sin(".data ++ (fmtNumChars ((1 - N : ℤ) : ℚ)
    ++ ("*t)/(".data ++ (fmtNumChars (R_p / (e * N))
    ++ ("-cos(".data ++ (fmtNumChars ((1 - N : ℤ) : ℚ)
    ++ ("*t))))) - (".data ++ (fmtNumChars e
    ++ ("*cos(".data ++ (intChars N
    ++ "*t))".data)))))))))))))

/-- Characters of the `y_expr` built by `make_sw_equations`:

    f"(-{Rp}*sin(t)) + "
    f"({rr}*sin(t+atn(sin({N_}*t)/({RpeN}-cos({N_}*t))))) + "
    f"({ee}*sin({Nn}*t))"
-/
def yExprChars (R_p e r : ℚ) (N : ℤ) : List Char :=
  "(-".data ++ (fmtNumChars R_p ++ ("*sin(t)) + (".data ++ (fmtNumChars r
    ++ ("*sin(t+atn(sin(".data ++ (fmtNumChars ((1 - N : ℤ) : ℚ)
    ++ ("*t)/(".data ++ (fmtNumChars (R_p / (e * N))
    ++ ("-cos(".data ++ (fmtNumChars ((1 - N : ℤ) : ℚ)
    ++ ("*t))))) + (".data ++ (fmtNumChars e
    ++ ("*sin(".data ++ (intChars N
    ++ "*t))".data)))))))))))))

/-- Embedding of `make_sw_equations(R_p, e, r, N)`. -/
def make_sw_equations (R_p e r : ℚ) (N : ℤ) : String × String :=
  (String.mk (xExprChars R_p e r N), String.mk (yExprChars R_p e r N))

/-! ## The validator `validate_inputs` -/

/-- Rule-1 error message of `validate_inputs`. -/
def msg_pins : String := "Number of pins must be an integer ≥ 2."

/-- Rule-2 error message of `validate_inputs`. -/
def msg_positive : String := "All geometry parameters must be positive."

/-- Rule-3 error message of `validate_inputs`. -/
def msg_nonzero : String := "Eccentricity × Pin Count must be non-zero."

/-- Rule-4 warning of `validate_inputs`:
`f"Warning: R_p/(e×N) = {RpeN:.6g} ∈ [-1,1]. May cause singularities in SolidWorks."`. -/
def msg_warning (q : ℚ) : String :=
  "Warning: R_p/(e×N) = " ++ String.mk (gfmt 6 q).render
    ++ " ∈ [-1,1]. May cause singularities in SolidWorks."

/-- Embedding of `validate_inputs(R_p, e, r, N)`.  The Python argument `N`
can be any number; `isinstance(N, (int, np.integer))` is modelled by the
flag `NisInt` accompanying its numeric value. -/
def validate_inputs (R_p e r N : ℚ) (NisInt : Bool) : Bool × List String :=
  let s0 : Bool × List String := (true, [])
  let s1 : Bool × List String :=
    if ¬ (NisInt = true ∧ 2 ≤ N) then (false, s0.2 ++ [msg_pins]) else s0
  let s2 : Bool × List String :=
    if R_p ≤ 0 ∨ e ≤ 0 ∨ r ≤ 0 then (false, s1.2 ++ [msg_positive]) else s1
  if e * N = 0 then (false, s2.2 ++ [msg_nonzero])
  else if -1 ≤ R_p / (e * N) ∧ R_p / (e * N) ≤ 1 then
    (s2.1, s2.2 ++ [msg_warning (R_p / (e * N))])
  else s2

/-! ## The sampler `sample_curve` -/

/-- numpy `np.sign` on a scalar: `-1` for negatives, `0` at `0`, `1` for
positives. -/
noncomputable def npSign (x : ℝ) : ℝ :=
  if x < 0 then -1 else if x = 0 then 0 else 1

/-- The epsilon / absolute tolerance `1e-9` used by `sample_curve`. -/
noncomputable def epsR : ℝ := 1 / 1000000000

/-- numpy `np.linspace t1 t2 samples` as a function of the index:
`t k = t1 + (t2 - t1) * k / (samples - 1)` (endpoint included). -/
noncomputable def linspace (t1 t2 : ℝ) (samples : ℕ) (k : ℕ) : ℝ :=
  t1 + (t2 - t1) * k / ((samples : ℝ) - 1)

/-- Result of `sample_curve`: the arrays `X`, `Y`, `t` and the diagnostics
dict, plus the internal arrays `denom`, `denom_safe`, `phi` (exposed for
verification). -/
structure SampleResult where
  X : ℕ → ℝ
  Y : ℕ → ℝ
  t : ℕ → ℝ
  denom : ℕ → ℝ
  denom_safe : ℕ → ℝ
  phi : ℕ → ℝ
  has_singularity : Prop
  R_p_over_eN : ℝ
  R_p_over_eN_in_unit_interval : Prop

/-- Embedding of `sample_curve(R_p, e, r, N, t1, t2, samples)`:

    N_int = int(N); _N_ = 1 - N_int; R_p_e_N = R_p / (e * N_int)
    t = np.linspace(t1, t2, samples)
    denom = R_p_e_N - np.cos(_N_ * t)
    denom_safe = np.where(np.isclose(denom, 0.0, atol=1e-9),
                          np.sign(denom) * 1e-9, denom)
    phi = np.arctan(np.sin(_N_ * t) / denom_safe)
    X = R_p*cos(t) - r*cos(t+phi) - e*cos(N_int*t)
    Y = -R_p*sin(t) + r*sin(t+phi) + e*sin(N_int*t)
    has_singularity = bool(np.any(np.isclose(denom, 0.0, atol=1e-9)))

`np.isclose(d, 0.0, atol=1e-9)` is `|d| ≤ 1e-9 + rtol * |0| = 1e-9`.
`N` is taken as an integer (`int(N)` of the source). -/
noncomputable def sample_curve (R_p e r : ℝ) (N : ℤ) (t1 t2 : ℝ) (samples : ℕ) :
    SampleResult :=
  let nN : ℝ := 1 - (N : ℝ)
  let RpeN : ℝ := R_p / (e * (N : ℝ))
  let t : ℕ → ℝ := fun k => linspace t1 t2 samples k
  let denom : ℕ → ℝ := fun k => RpeN - Real.cos (nN * t k)
  let denom_safe : ℕ → ℝ := fun k =>
    if |denom k| ≤ epsR then npSign (denom k) * epsR else denom k
  let phi : ℕ → ℝ := fun k => Real.arctan (Real.sin (nN * t k) / denom_safe k)
  { X := fun k => R_p * Real.cos (t k) - r * Real.cos (t k + phi k)
        - e * Real.cos ((N : ℝ) * t k)
    Y := fun k => -R_p * Real.sin (t k) + r * Real.sin (t k + phi k)
        + e * Real.sin ((N : ℝ) * t k)
    t := t
    denom := denom
    denom_safe := denom_safe
    phi := phi
    has_singularity := ∃ k, k < samples ∧ |denom k| ≤ epsR
    R_p_over_eN := RpeN
    R_p_over_eN_in_unit_interval := -1 ≤ RpeN ∧ RpeN ≤ 1 }

/-! ## Evaluation of the built text expressions

Modelled from the spec: the external equation engine that consumes
`x_expr` / `y_expr` is not part of `src/`; the spec describes it as "a
standard expression evaluator supporting `atn` = arctan", angles in
radians.  Each numeric literal of the text denotes exactly the rational
printed by `_fmt_num`, which is `(gfmt 12 ·).val`. -/

/-- Modelled from the spec: value of the builder's `x_expr` at parameter
value `t`, under a standard evaluator with `atn` = arctangent (radians).
The baked literals are the `_fmt_num`-rounded values of `R_p`, `r`, `e`,
`1 - N` and `R_p/(e·N)`; `str(N)` parses back to `N` exactly. -/
noncomputable def textEvalX (R_p e r : ℚ) (N : ℤ) (t : ℝ) : ℝ :=
  ((gfmt 12 R_p).val : ℝ) * Real.cos t
    - ((gfmt 12 r).val : ℝ) * Real.cos (t +
        Real.arctan (Real.sin (((gfmt 12 ((1 - N : ℤ) : ℚ)).val : ℝ) * t) /
          (((gfmt 12 (R_p / (e * N))).val : ℝ)
            - Real.cos (((gfmt 12 ((1 - N : ℤ) : ℚ)).val : ℝ) * t))))
    - ((gfmt 12 e).val : ℝ) * Real.cos ((N : ℝ) * t)

/-- Modelled from the spec: value of the builder's `y_expr` at parameter
value `t`, under a standard evaluator with `atn` = arctangent (radians). -/
noncomputable def textEvalY (R_p e r : ℚ) (N : ℤ) (t : ℝ) : ℝ :=
  -(((gfmt 12 R_p).val : ℝ) * Real.sin t)
    + ((gfmt 12 r).val : ℝ) * Real.sin (t +
        Real.arctan (Real.sin (((gfmt 12 ((1 - N : ℤ) : ℚ)).val : ℝ) * t) /
          (((gfmt 12 (R_p / (e * N))).val : ℝ)
            - Real.cos (((gfmt 12 ((1 - N : ℤ) : ℚ)).val : ℝ) * t))))
    + ((gfmt 12 e).val : ℝ) * Real.sin ((N : ℝ) * t)

/-! ## Rational interval arithmetic for cosine

Used to decide, rigorously, whether any of the 1000 default sample points
of `sample_curve` has its denominator within `1e-9` of zero.  All interval
endpoints are rationals, so the per-sample checks are kernel-decidable;
soundness over `ℝ` is proved from `Real.cos_bound` and the double-angle
formula. -/

/-- A closed rational interval. -/
structure QI where
  lo : ℚ
  hi : ℚ

/-- Membership of a real number in a rational interval. -/
def QI.memR (I : QI) (x : ℝ) : Prop := (I.lo : ℝ) ≤ x ∧ x ≤ (I.hi : ℝ)

/-- Interval square (the third branch over-approximates `max` by a sum). -/
def isq (I : QI) : QI :=
  if 0 ≤ I.lo then ⟨I.lo * I.lo, I.hi * I.hi⟩
  else if I.hi ≤ 0 then ⟨I.hi * I.hi, I.lo * I.lo⟩
  else ⟨0, I.lo * I.lo + I.hi * I.hi⟩

/-- Interval for `cos x` on `|x| ≤ 1`, from the quadratic Taylor bound
`|cos x - (1 - x²/2)| ≤ |x|⁴ · 5/96`. -/
def icosSmallQ (I : QI) : QI :=
  ⟨1 - (isq I).hi / 2 - 5 / 96 * ((isq I).hi * (isq I).hi),
   1 - (isq I).lo / 2 + 5 / 96 * ((isq I).hi * (isq I).hi)⟩

/-- Interval image under the double-angle map `c ↦ 2c² - 1`. -/
def idouble (I : QI) : QI := ⟨2 * (isq I).lo - 1, 2 * (isq I).hi - 1⟩

/-- Interval for `cos x` on `0 ≤ x ≤ 8/5`: quarter the angle, take the
quadratic Taylor interval, then double twice. -/
def icosQuarter (I : QI) : QI :=
  idouble (idouble (icosSmallQ ⟨I.lo / 4, I.hi / 4⟩))

/-- Rational lower bound for π (the bound of `Real.pi_gt_d6`). -/
def pL : ℚ := 3141592 / 1000000

/-- Rational upper bound for π (the bound of `Real.pi_lt_d6`). -/
def pU : ℚ := 3141593 / 1000000

/-- The tolerance `1e-9` over `ℚ`. -/
def qeps : ℚ := 1 / 1000000000

/-- Kernel-decidable check that `cos (2·π·j'/111)` stays farther than
`1e-9` from `2/5`, for `0 ≤ j' ≤ 111`: enclose the angle with the rational
π bounds, fold with `cos (π - x) = -cos x` when it exceeds `8/5`, and test
the resulting `icosQuarter` interval against `2/5 ± 1e-9`. -/
def checkCore (j' : ℚ) : Bool :=
  if 2 * pU * j' / 111 ≤ 8 / 5 then
    decide (2 / 5 + qeps < (icosQuarter ⟨2 * pL * j' / 111, 2 * pU * j' / 111⟩).lo ∨
      (icosQuarter ⟨2 * pL * j' / 111, 2 * pU * j' / 111⟩).hi < 2 / 5 - qeps)
  else
    decide (0 ≤ pL - 2 * pU * j' / 111) &&
    decide (pU - 2 * pL * j' / 111 ≤ 8 / 5) &&
    decide (2 / 5 + qeps <
        -(icosQuarter ⟨pL - 2 * pU * j' / 111, pU - 2 * pL * j' / 111⟩).hi ∨
      -(icosQuarter ⟨pL - 2 * pU * j' / 111, pU - 2 * pL * j' / 111⟩).lo < 2 / 5 - qeps)

/-- Check for sample residue `j`: reduce `cos (2·π·j/111)` by the symmetry
`cos (2π - x) = cos x` and run `checkCore`. -/
def checkJ (j : ℕ) : Bool := checkCore (min (j : ℚ) (111 - (j : ℚ)))

/-! ## Maximal alphabetic runs of a character list

Used to state that `t` is the only free symbol of the built expressions:
every maximal alphabetic run of the text is one of the identifiers
`cos`, `sin`, `atn`, `t` — or the exponent marker `e` of a numeric
literal, recognisable as an `e` immediately preceded by a digit.  The
function is fueled so that it evaluates in the kernel. -/

/-- Maximal alphabetic runs of a character list, each paired with the
character immediately preceding the run (`none` at the very start).
`fuel` must be at least the length of the list. -/
def runsAuxF : ℕ → Option Char → List Char → List (Option Char × List Char)
  | 0, _, _ => []
  | _ + 1, _, [] => []
  | fuel + 1, p, c :: cs =>
    if c.isAlpha then
      (p, c :: cs.takeWhile Char.isAlpha) :: runsAuxF fuel none (cs.dropWhile Char.isAlpha)
    else runsAuxF fuel (some c) cs

/-- Maximal alphabetic runs of a character list with their preceding
characters. -/
def letterRuns (l : List Char) : List (Option Char × List Char) :=
  runsAuxF l.length none l

/-- Maximal alphabetic runs with an explicit predecessor seed: `letterRuns`
generalised so that runs of a suffix can be computed compositionally. -/
def runsP (p : Option Char) (l : List Char) : List (Option Char × List Char) :=
  runsAuxF l.length p l

/-- A run is good when it is one of the expected identifiers `t`, `cos`,
`sin`, `atn`, or it is the exponent marker `e` of a numeric literal
(immediately preceded by a digit). -/
def goodRun (pr : Option Char × List Char) : Prop :=
  pr.2 = ['t'] ∨ pr.2 = ['c', 'o', 's'] ∨ pr.2 = ['s', 'i', 'n'] ∨
    pr.2 = ['a', 't', 'n'] ∨
    (pr.2 = ['e'] ∧ ∃ c, pr.1 = some c ∧ c.isDigit = true)

section

attribute [local semireducible] Rat.mul Rat.inv Rat.add Rat.sub Rat.ofScientific

/-! # Helper lemmas -/

/-- When the ratio `R_p/(e·N)` has magnitude more than `1 + 1e-9`, every
sample denominator of `sample_curve` stays farther than `1e-9` from zero
(`|cos| ≤ 1`). -/
theorem denom_far {R_p e : ℝ} {N : ℤ} (t1 t2 : ℝ) (samples : ℕ)
    (h : 1 + 1 / 1000000000 < |R_p / (e * (N : ℝ))|) (k : ℕ) :
    ¬ (|R_p / (e * (N : ℝ)) -
        Real.cos ((1 - (N : ℝ)) * linspace t1 t2 samples k)| ≤ 1 / 1000000000) := by
  intro hcl
  have h1 := abs_sub_abs_le_abs_sub (R_p / (e * (N : ℝ)))
    (Real.cos ((1 - (N : ℝ)) * linspace t1 t2 samples k))
  have h2 := Real.abs_cos_le_one ((1 - (N : ℝ)) * linspace t1 t2 samples k)
  linarith

/-! ## Formatter lemmas -/

/-- The fueled digit extraction agrees with `Nat.digits 10` when the fuel
covers the number. -/
theorem digitsFuel_eq_digits : ∀ (fuel n : ℕ), n < 10 ^ fuel →
    digitsFuel fuel n = Nat.digits 10 n
  | 0, n, h => by
    have hn : n = 0 := by simpa using h
    subst hn; simp [digitsFuel]
  | fuel + 1, n, h => by
    by_cases hn : n = 0
    · subst hn; simp [digitsFuel]
    · rw [digitsFuel, if_neg hn,
        Nat.digits_def' (by norm_num : 1 < 10) (Nat.pos_of_ne_zero hn)]
      congr 1
      exact digitsFuel_eq_digits fuel (n / 10)
        (by
          rw [Nat.div_lt_iff_lt_mul (by norm_num : 0 < 10)]
          calc n < 10 ^ (fuel + 1) := h
            _ = 10 ^ fuel * 10 := by ring)

/-- A nonzero number has at least one digit. -/
theorem numDigits_pos {n : ℕ} (hn : n ≠ 0) : 1 ≤ numDigits n := by
  have hlt : n < 10 ^ n := Nat.lt_pow_self (by norm_num) n
  have h10 : Nat.digits 10 n ≠ [] := Nat.digits_ne_nil_iff_ne_zero.2 hn
  unfold numDigits
  rw [digitsFuel_eq_digits n n hlt]
  exact List.length_pos.2 h10

/-- `numDigits` brackets its argument between consecutive powers of ten. -/
theorem numDigits_spec {n : ℕ} (hn : n ≠ 0) :
    10 ^ (numDigits n - 1) ≤ n ∧ n < 10 ^ numDigits n := by
  have hlt : n < 10 ^ n := Nat.lt_pow_self (by norm_num) n
  have heq : numDigits n = Nat.log 10 n + 1 := by
    unfold numDigits
    rw [digitsFuel_eq_digits n n hlt, Nat.digits_len 10 n (by norm_num) hn]
  rw [heq]
  simpa using ⟨Nat.pow_log_le_self 10 hn, Nat.lt_pow_succ_log_self (by norm_num) n⟩

/-- The decimal exponent satisfies `10 ^ E ≤ |q| < 10 ^ (E + 1)`. -/
theorem decExp_spec {q : ℚ} (hq : q ≠ 0) :
    (10 : ℚ) ^ decExp q ≤ |q| ∧ |q| < (10 : ℚ) ^ (decExp q + 1) := by
  have hnum : q.num ≠ 0 := Rat.num_ne_zero.2 hq
  have ha : q.num.natAbs ≠ 0 := Int.natAbs_ne_zero.2 hnum
  have hb : q.den ≠ 0 := q.den_nz
  obtain ⟨ha1, ha2⟩ := numDigits_spec ha
  obtain ⟨hb1, hb2⟩ := numDigits_spec hb
  have hA1 : 1 ≤ numDigits q.num.natAbs := numDigits_pos ha
  have hB1 : 1 ≤ numDigits q.den := numDigits_pos hb
  have hd : decExp q =
      if (10 : ℚ) ^ ((numDigits q.num.natAbs : ℤ) - numDigits q.den) ≤ |q| then
        (numDigits q.num.natAbs : ℤ) - numDigits q.den
      else (numDigits q.num.natAbs : ℤ) - numDigits q.den - 1 := by
    simp only [decExp, hq, if_false]
  set A := numDigits q.num.natAbs with hA
  set B := numDigits q.den with hB
  have hden0 : (0 : ℚ) < (q.den : ℚ) := by exact_mod_cast q.pos
  have hnum0 : (0 : ℚ) < (q.num.natAbs : ℚ) := by
    exact_mod_cast Nat.pos_of_ne_zero ha
  have habs : |q| = (q.num.natAbs : ℚ) / (q.den : ℚ) := by
    nth_rewrite 1 [← Rat.num_div_den q]
    rw [abs_div, abs_of_pos hden0]
    congr 1
    rw [← Int.cast_natCast, Int.natCast_natAbs, Int.cast_abs]
  have hup : |q| < (10 : ℚ) ^ ((A : ℤ) - B + 1) := by
    have h1 : (q.num.natAbs : ℚ) < (10 : ℚ) ^ (A : ℤ) := by
      rw [zpow_natCast]
      exact_mod_cast ha2
    have h2 : (10 : ℚ) ^ ((B : ℤ) - 1) ≤ (q.den : ℚ) := by
      have hBz : (B : ℤ) - 1 = ((B - 1 : ℕ) : ℤ) := by omega
      rw [hBz, zpow_natCast]
      exact_mod_cast hb1
    have h3 : |q| < (10 : ℚ) ^ (A : ℤ) / (10 : ℚ) ^ ((B : ℤ) - 1) := by
      rw [habs]
      exact div_lt_div₀ h1 h2 (by positivity) (by positivity)
    calc |q| < (10 : ℚ) ^ (A : ℤ) / (10 : ℚ) ^ ((B : ℤ) - 1) := h3
      _ = (10 : ℚ) ^ ((A : ℤ) - B + 1) := by
        rw [← zpow_sub₀ (by norm_num : (10 : ℚ) ≠ 0)]
        congr 1
        ring
  have hdown : (10 : ℚ) ^ ((A : ℤ) - B - 1) < |q| := by
    have h1 : (10 : ℚ) ^ ((A : ℤ) - 1) ≤ (q.num.natAbs : ℚ) := by
      have hAz : (A : ℤ) - 1 = ((A - 1 : ℕ) : ℤ) := by omega
      rw [hAz, zpow_natCast]
      exact_mod_cast ha1
    have h2 : (q.den : ℚ) < (10 : ℚ) ^ (B : ℤ) := by
      rw [zpow_natCast]
      exact_mod_cast hb2
    have h3 : (10 : ℚ) ^ ((A : ℤ) - 1) / (10 : ℚ) ^ (B : ℤ) < |q| := by
      rw [habs, div_lt_div_iff₀ (by positivity) hden0]
      exact mul_lt_mul' h1 h2 (le_of_lt hden0) hnum0
    calc (10 : ℚ) ^ ((A : ℤ) - B - 1)
        = (10 : ℚ) ^ ((A : ℤ) - 1) / (10 : ℚ) ^ (B : ℤ) := by
          rw [← zpow_sub₀ (by norm_num : (10 : ℚ) ≠ 0)]
          congr 1
          ring
      _ < |q| := h3
  by_cases hc : (10 : ℚ) ^ ((A : ℤ) - B) ≤ |q|
  · rw [hd, if_pos hc]
    exact ⟨hc, hup⟩
  · rw [hd, if_neg hc]
    refine ⟨le_of_lt hdown, ?_⟩
    calc |q| < (10 : ℚ) ^ ((A : ℤ) - B) := not_le.1 hc
      _ = (10 : ℚ) ^ ((A : ℤ) - B - 1 + 1) := by
        congr 1
        ring

/-- The mantissa of a nonzero rational lies between `10^(p-1)` and
`10^p` (it can reach `10^p` by rounding up). -/
theorem mantissa_bounds (p : ℕ) (hp : 1 ≤ p) {q : ℚ} (hq : q ≠ 0) :
    (10 : ℤ) ^ (p - 1) ≤ mantissa p q ∧ mantissa p q ≤ (10 : ℤ) ^ p := by
  obtain ⟨hE1, hE2⟩ := decExp_spec hq
  have hpow : (0 : ℚ) < (10 : ℚ) ^ (((p : ℤ) - 1) - decExp q) := by positivity
  have hx1 : (10 : ℚ) ^ ((p : ℤ) - 1) ≤ |q| * (10 : ℚ) ^ (((p : ℤ) - 1) - decExp q) := by
    calc (10 : ℚ) ^ ((p : ℤ) - 1)
        = (10 : ℚ) ^ decExp q * (10 : ℚ) ^ (((p : ℤ) - 1) - decExp q) := by
          rw [← zpow_add₀ (by norm_num : (10 : ℚ) ≠ 0)]
          congr 1
          ring
      _ ≤ |q| * (10 : ℚ) ^ (((p : ℤ) - 1) - decExp q) :=
          mul_le_mul_of_nonneg_right hE1 (le_of_lt hpow)
  have hx2 : |q| * (10 : ℚ) ^ (((p : ℤ) - 1) - decExp q) < (10 : ℚ) ^ (p : ℤ) := by
    calc |q| * (10 : ℚ) ^ (((p : ℤ) - 1) - decExp q)
        < (10 : ℚ) ^ (decExp q + 1) * (10 : ℚ) ^ (((p : ℤ) - 1) - decExp q) :=
          mul_lt_mul_of_pos_right hE2 hpow
      _ = (10 : ℚ) ^ (p : ℤ) := by
          rw [← zpow_add₀ (by norm_num : (10 : ℚ) ≠ 0)]
          congr 1
          ring
  have hround := abs_sub_round (|q| * (10 : ℚ) ^ (((p : ℤ) - 1) - decExp q))
  obtain ⟨hr1, hr2⟩ := abs_sub_le_iff.1 hround
  have hcast1 : (((10 : ℤ) ^ (p - 1) : ℤ) : ℚ) = (10 : ℚ) ^ ((p : ℤ) - 1) := by
    have : (p : ℤ) - 1 = ((p - 1 : ℕ) : ℤ) := by omega
    rw [this, zpow_natCast]
    push_cast
    ring
  have hcast2 : (((10 : ℤ) ^ p : ℤ) : ℚ) = (10 : ℚ) ^ (p : ℤ) := by
    rw [zpow_natCast]
    push_cast
    ring
  constructor
  · have h1 : (((10 : ℤ) ^ (p - 1) : ℤ) : ℚ) - 1 < ((mantissa p q : ℤ) : ℚ) := by
      unfold mantissa
      rw [hcast1]
      linarith
    have h2 : ((10 : ℤ) ^ (p - 1) : ℤ) - 1 < mantissa p q := by exact_mod_cast h1
    omega
  · have h1 : ((mantissa p q : ℤ) : ℚ) < (((10 : ℤ) ^ p : ℤ) : ℚ) + 1 := by
      unfold mantissa
      rw [hcast2]
      linarith
    have h2 : mantissa p q < ((10 : ℤ) ^ p : ℤ) + 1 := by exact_mod_cast h1
    omega

/-- Folding digits (most significant first) is `Nat.ofDigits` of the
reversed list. -/
theorem digitsVal_reverse (L : List ℕ) : digitsVal L.reverse = Nat.ofDigits 10 L := by
  induction L with
  | nil => rfl
  | cons d L ih =>
    rw [List.reverse_cons]
    unfold digitsVal at ih ⊢
    rw [List.foldl_append, Nat.ofDigits_cons, ih]
    simp
    omega

/-- Stripping least-significant zero digits factors out a power of ten. -/
theorem ofDigits_dropWhile_zero (L : List ℕ) :
    Nat.ofDigits 10 L =
      Nat.ofDigits 10 (L.dropWhile (· == 0)) *
        10 ^ (L.length - (L.dropWhile (· == 0)).length) := by
  induction L with
  | nil => simp
  | cons d L ih =>
    by_cases hd : d = 0
    · subst hd
      have hle : (L.dropWhile (· == 0)).length ≤ L.length :=
        (List.dropWhile_sublist _).length_le
      have hxp : L.length + 1 - (L.dropWhile (· == 0)).length
          = (L.length - (L.dropWhile (· == 0)).length) + 1 := by omega
      rw [List.dropWhile_cons]
      simp only [beq_self_eq_true, if_true]
      rw [Nat.ofDigits_cons, ih, List.length_cons, hxp, pow_succ]
      ring
    · have hdb : (d == 0) = false := by simpa using hd
      rw [List.dropWhile_cons]
      simp [hdb]

/-- The last digit kept after stripping is nonzero. -/
theorem head_dropWhile_ne_zero : ∀ (L : List ℕ) (x : ℕ),
    (L.dropWhile (· == 0)).head? = some x → x ≠ 0
  | [], x, h => by simp [List.dropWhile] at h
  | d :: L, x, h => by
    by_cases hd : d = 0
    · subst hd
      rw [List.dropWhile_cons] at h
      simp only [beq_self_eq_true, if_true] at h
      exact head_dropWhile_ne_zero L x h
    · have hdb : (d == 0) = false := by simpa using hd
      rw [List.dropWhile_cons] at h
      simp [hdb] at h
      omega

/-- Core digit computation: the value denoted by the stripped digit list of
a `p`-digit number `m'` at exponent `E'`. -/
theorem val_of_digits (p : ℕ) (hp : 1 ≤ p) (m' : ℕ) (hlo : 10 ^ (p - 1) ≤ m')
    (hhi : m' < 10 ^ p) (neg : Bool) (E' : ℤ) (sci : Bool) :
    GFmt.val ⟨neg, ((digitsFuel p m').dropWhile (· == 0)).reverse, E', sci⟩
      = (if neg = true then (-1 : ℚ) else 1) * (m' : ℚ)
          * (10 : ℚ) ^ (E' - ((p : ℤ) - 1)) := by
  have hm0 : m' ≠ 0 := by
    intro h
    subst h
    have : (0 : ℕ) < 10 ^ (p - 1) := by positivity
    omega
  have hL : digitsFuel p m' = Nat.digits 10 m' := digitsFuel_eq_digits p m' hhi
  have hlen : (digitsFuel p m').length = p := by
    rw [hL, Nat.digits_len 10 m' (by norm_num) hm0,
      Nat.log_eq_of_pow_le_of_lt_pow hlo (by
        have : p - 1 + 1 = p := by omega
        rw [this]
        exact hhi)]
    omega
  have hofL : Nat.ofDigits 10 (digitsFuel p m') = m' := by
    rw [hL]
    exact Nat.ofDigits_digits 10 m'
  have hstrip := ofDigits_dropWhile_zero (digitsFuel p m')
  set D := (digitsFuel p m').dropWhile (· == 0) with hD
  have hdle : D.length ≤ p := by
    rw [← hlen]
    exact (List.dropWhile_sublist _).length_le
  have hDne : D ≠ [] := by
    intro h
    rw [h] at hstrip
    simp at hstrip
    rw [hofL] at hstrip
    exact hm0 hstrip
  have hdpos : 1 ≤ D.length := by
    cases hDe : D with
    | nil => exact absurd hDe hDne
    | cons a l => simp [hDe]
  have hm'eq : (m' : ℚ) = ((Nat.ofDigits 10 D : ℕ) : ℚ) * (10 : ℚ) ^ ((p : ℤ) - D.length) := by
    have h1 : m' = Nat.ofDigits 10 D * 10 ^ (p - D.length) := by
      rw [← hofL, hstrip, hlen]
    have h2 : ((p : ℤ) - D.length) = ((p - D.length : ℕ) : ℤ) := by omega
    rw [h1, h2, zpow_natCast]
    push_cast
    ring
  have hexp : E' - ((D.length : ℤ) - 1)
      = ((p : ℤ) - D.length) + (E' - ((p : ℤ) - 1)) := by ring
  have key2 : ((Nat.ofDigits 10 D : ℕ) : ℚ) * (10 : ℚ) ^ (E' - ((D.length : ℤ) - 1))
      = (m' : ℚ) * (10 : ℚ) ^ (E' - ((p : ℤ) - 1)) := by
    rw [hm'eq, mul_assoc, ← zpow_add₀ (by norm_num : (10 : ℚ) ≠ 0), hexp]
  unfold GFmt.val
  simp only [List.length_reverse]
  rw [digitsVal_reverse D]
  cases neg <;> simp only [Bool.false_eq_true, if_false, if_true, one_mul, neg_mul] <;>
    linarith [key2]

/-- The value printed by `gfmt` is the sign times the mantissa scaled back
to the decimal exponent. -/
theorem gfmt_val_eq (p : ℕ) (hp : 1 ≤ p) {q : ℚ} (hq : q ≠ 0) :
    (gfmt p q).val = (if q < 0 then (-1 : ℚ) else 1) * ((mantissa p q : ℤ) : ℚ)
      * (10 : ℚ) ^ (decExp q - ((p : ℤ) - 1)) := by
  obtain ⟨hml, hmu⟩ := mantissa_bounds p hp hq
  have hm0 : 0 ≤ mantissa p q := le_trans (by positivity) hml
  have hmnat : (((mantissa p q).toNat : ℕ) : ℤ) = mantissa p q := Int.toNat_of_nonneg hm0
  have h10l : (((10 : ℕ) ^ (p - 1) : ℕ) : ℤ) = (10 : ℤ) ^ (p - 1) := by push_cast; ring
  have h10u : (((10 : ℕ) ^ p : ℕ) : ℤ) = (10 : ℤ) ^ p := by push_cast; ring
  have hmlN : 10 ^ (p - 1) ≤ (mantissa p q).toNat := by
    have h := hml
    rw [← h10l, ← hmnat] at h
    exact_mod_cast h
  have hmuN : (mantissa p q).toNat ≤ 10 ^ p := by
    have h := hmu
    rw [← h10u, ← hmnat] at h
    exact_mod_cast h
  have hif : (if (decide (q < 0)) = true then (-1 : ℚ) else 1)
      = (if q < 0 then (-1 : ℚ) else 1) := by
    by_cases hsgn : q < 0 <;> simp [hsgn]
  by_cases htop : (mantissa p q).toNat = 10 ^ p
  · have hE : gfmt p q = ⟨decide (q < 0),
        ((digitsFuel p (10 ^ (p - 1))).dropWhile (· == 0)).reverse, decExp q + 1,
        decide (decExp q + 1 < -4 ∨ (p : ℤ) ≤ decExp q + 1)⟩ := by
      simp only [gfmt, if_neg hq, htop]
      simp
    have hmq : ((mantissa p q : ℤ) : ℚ) = (((10 ^ p : ℕ)) : ℚ) := by
      rw [← hmnat, htop]
      push_cast
      ring
    have hkey : (((10 ^ (p - 1) : ℕ)) : ℚ) * (10 : ℚ) ^ (decExp q + 1 - ((p : ℤ) - 1))
        = (((10 ^ p : ℕ)) : ℚ) * (10 : ℚ) ^ (decExp q - ((p : ℤ) - 1)) := by
      have e1 : (((10 ^ (p - 1) : ℕ)) : ℚ) = (10 : ℚ) ^ (((p - 1 : ℕ)) : ℤ) := by
        rw [zpow_natCast]
        push_cast
        ring
      have e2 : (((10 ^ p : ℕ)) : ℚ) = (10 : ℚ) ^ (((p : ℕ)) : ℤ) := by
        rw [zpow_natCast]
        push_cast
        ring
      rw [e1, e2, ← zpow_add₀ (by norm_num : (10 : ℚ) ≠ 0),
        ← zpow_add₀ (by norm_num : (10 : ℚ) ≠ 0)]
      congr 1
      omega
    rw [hE, val_of_digits p hp (10 ^ (p - 1)) (le_refl _)
        (Nat.pow_lt_pow_right (by norm_num) (by omega)), hif, hmq,
      mul_assoc, hkey, ← mul_assoc]
  · have hE : gfmt p q = ⟨decide (q < 0),
        ((digitsFuel p (mantissa p q).toNat).dropWhile (· == 0)).reverse, decExp q,
        decide (decExp q < -4 ∨ (p : ℤ) ≤ decExp q)⟩ := by
      simp only [gfmt, if_neg hq, htop]
      simp
    have hcq : (((mantissa p q).toNat : ℕ) : ℚ) = ((mantissa p q : ℤ) : ℚ) := by
      exact_mod_cast hmnat
    rw [hE, val_of_digits p hp (mantissa p q).toNat hmlN
        (lt_of_le_of_ne hmuN htop), hif, hcq]

/-! # Claim theorems -/

/-- C8: the formatter (modelled over exact rationals) is a total function;
for every nonzero value the printed string denotes a rational within half
an ulp of the 12th significant digit of the original value (agreement to
at least 12 significant digits when parsed back), its digit list carries no
forced trailing zero, and scientific notation is used only when the decimal
exponent leaves `[-4, 12)` (no forced exponent). -/
theorem C8_formatter_round_trip (q : ℚ) (hq : q ≠ 0) :
    |(gfmt 12 q).val - q| ≤ (10 : ℚ) ^ (decExp q - 11) / 2 ∧
    (gfmt 12 q).digits.getLast? ≠ some 0 ∧
    ((gfmt 12 q).sci = false ↔
      (-4 ≤ (gfmt 12 q).exp ∧ (gfmt 12 q).exp < 12)) := by
  have hv := gfmt_val_eq 12 (by norm_num) hq
  refine ⟨?_, ?_, ?_⟩
  · have hq_eq : (if q < 0 then (-1 : ℚ) else 1) * |q| = q := by
      by_cases hsgn : q < 0
      · rw [if_pos hsgn, abs_of_neg hsgn]
        ring
      · rw [if_neg hsgn, abs_of_nonneg (not_lt.1 hsgn)]
        ring
    have hm : ((mantissa 12 q : ℤ) : ℚ)
        = ((round (|q| * (10 : ℚ) ^ (11 - decExp q)) : ℤ) : ℚ) := by
      unfold mantissa
      norm_num
    have h1 : (gfmt 12 q).val - q
        = (if q < 0 then (-1 : ℚ) else 1)
          * ((round (|q| * (10 : ℚ) ^ (11 - decExp q)) : ℚ)
              - |q| * (10 : ℚ) ^ (11 - decExp q))
          * (10 : ℚ) ^ (decExp q - 11) := by
      have he : decExp q - (((12 : ℕ) : ℤ) - 1) = decExp q - 11 := by norm_num
      have habs_eq : |q| * (10 : ℚ) ^ (11 - decExp q) * (10 : ℚ) ^ (decExp q - 11)
          = |q| := by
        rw [mul_assoc, ← zpow_add₀ (by norm_num : (10 : ℚ) ≠ 0)]
        norm_num
      calc (gfmt 12 q).val - q
          = (if q < 0 then (-1 : ℚ) else 1)
              * ((round (|q| * (10 : ℚ) ^ (11 - decExp q)) : ℚ))
              * (10 : ℚ) ^ (decExp q - 11)
            - (if q < 0 then (-1 : ℚ) else 1) * |q| := by
              rw [hv, hm, hq_eq, he]
        _ = (if q < 0 then (-1 : ℚ) else 1)
              * ((round (|q| * (10 : ℚ) ^ (11 - decExp q)) : ℚ))
              * (10 : ℚ) ^ (decExp q - 11)
            - (if q < 0 then (-1 : ℚ) else 1)
              * (|q| * (10 : ℚ) ^ (11 - decExp q) * (10 : ℚ) ^ (decExp q - 11)) := by
              rw [habs_eq]
        _ = _ := by ring
    rw [h1, abs_mul, abs_mul]
    have hs1 : |if q < 0 then (-1 : ℚ) else 1| = 1 := by
      by_cases hsgn : q < 0 <;> simp [hsgn]
    have hs2 : |(10 : ℚ) ^ (decExp q - 11)| = (10 : ℚ) ^ (decExp q - 11) :=
      abs_of_pos (by positivity)
    have hr : |(round (|q| * (10 : ℚ) ^ (11 - decExp q)) : ℚ)
        - |q| * (10 : ℚ) ^ (11 - decExp q)| ≤ 1 / 2 := by
      rw [abs_sub_comm]
      exact abs_sub_round _
    rw [hs1, hs2, one_mul]
    have hp10 : (0 : ℚ) < (10 : ℚ) ^ (decExp q - 11) := by positivity
    calc |(round (|q| * (10 : ℚ) ^ (11 - decExp q)) : ℚ)
          - |q| * (10 : ℚ) ^ (11 - decExp q)| * (10 : ℚ) ^ (decExp q - 11)
        ≤ 1 / 2 * (10 : ℚ) ^ (decExp q - 11) :=
          mul_le_mul_of_nonneg_right hr (le_of_lt hp10)
      _ = (10 : ℚ) ^ (decExp q - 11) / 2 := by ring
  · have hdig : ∃ m' : ℕ, (gfmt 12 q).digits
        = ((digitsFuel 12 m').dropWhile (· == 0)).reverse := by
      by_cases htop : (mantissa 12 q).toNat = 10 ^ 12
      · refine ⟨10 ^ 11, ?_⟩
        simp only [gfmt, if_neg hq, htop]
        simp
      · refine ⟨(mantissa 12 q).toNat, ?_⟩
        simp only [gfmt, if_neg hq, htop]
        simp
    obtain ⟨m', hd⟩ := hdig
    rw [hd]
    rw [List.getLast?_eq_head?_reverse, List.reverse_reverse]
    intro hcontra
    exact head_dropWhile_ne_zero (digitsFuel 12 m') 0 hcontra rfl
  · have hsci : (gfmt 12 q).sci
        = decide ((gfmt 12 q).exp < -4 ∨ (12 : ℤ) ≤ (gfmt 12 q).exp) := by
      by_cases htop : (mantissa 12 q).toNat = 10 ^ 12
      · simp only [gfmt, if_neg hq, htop]
        simp
      · simp only [gfmt, if_neg hq, htop]
        simp
    rw [hsci]
    simp only [decide_eq_false_iff_not, not_or, not_lt, not_le]

/-- Witness for `C8_formatter_round_trip` at a very small value (`1e-6`),
a very large value (`1e6`) and a negative value (`-3`). -/
theorem C8_witness :
    ((1 / 1000000 : ℚ) ≠ 0 ∧
      (|(gfmt 12 (1 / 1000000)).val - 1 / 1000000|
          ≤ (10 : ℚ) ^ (decExp (1 / 1000000) - 11) / 2 ∧
        (gfmt 12 (1 / 1000000)).digits.getLast? ≠ some 0 ∧
        ((gfmt 12 (1 / 1000000)).sci = false ↔
          (-4 ≤ (gfmt 12 (1 / 1000000)).exp ∧ (gfmt 12 (1 / 1000000)).exp < 12)))) ∧
    ((1000000 : ℚ) ≠ 0 ∧
      (|(gfmt 12 1000000).val - 1000000|
          ≤ (10 : ℚ) ^ (decExp 1000000 - 11) / 2 ∧
        (gfmt 12 1000000).digits.getLast? ≠ some 0 ∧
        ((gfmt 12 1000000).sci = false ↔
          (-4 ≤ (gfmt 12 1000000).exp ∧ (gfmt 12 1000000).exp < 12)))) ∧
    ((-3 : ℚ) ≠ 0 ∧
      (|(gfmt 12 (-3)).val - (-3)|
          ≤ (10 : ℚ) ^ (decExp (-3) - 11) / 2 ∧
        (gfmt 12 (-3)).digits.getLast? ≠ some 0 ∧
        ((gfmt 12 (-3)).sci = false ↔
          (-4 ≤ (gfmt 12 (-3)).exp ∧ (gfmt 12 (-3)).exp < 12)))) :=
  ⟨⟨by norm_num, C8_formatter_round_trip (1 / 1000000) (by norm_num)⟩,
   ⟨by norm_num, C8_formatter_round_trip 1000000 (by norm_num)⟩,
   ⟨by norm_num, C8_formatter_round_trip (-3) (by norm_num)⟩⟩


/-! ## Projection equations for `sample_curve` (definitional) -/

/-- The sampler's `t` array is the `linspace`. -/
theorem sample_curve_t_eq (R_p e r : ℝ) (N : ℤ) (t1 t2 : ℝ) (samples k : ℕ) :
    (sample_curve R_p e r N t1 t2 samples).t k = linspace t1 t2 samples k := rfl

/-- The sampler's denominator array, written out. -/
theorem sample_curve_denom_eq (R_p e r : ℝ) (N : ℤ) (t1 t2 : ℝ) (samples k : ℕ) :
    (sample_curve R_p e r N t1 t2 samples).denom k
      = R_p / (e * (N : ℝ))
        - Real.cos ((1 - (N : ℝ)) * (sample_curve R_p e r N t1 t2 samples).t k) := rfl

/-- The sampler's epsilon substitution, written out. -/
theorem sample_curve_denom_safe_eq (R_p e r : ℝ) (N : ℤ) (t1 t2 : ℝ) (samples k : ℕ) :
    (sample_curve R_p e r N t1 t2 samples).denom_safe k
      = if |(sample_curve R_p e r N t1 t2 samples).denom k| ≤ epsR then
          npSign ((sample_curve R_p e r N t1 t2 samples).denom k) * epsR
        else (sample_curve R_p e r N t1 t2 samples).denom k := rfl

/-- The sampler's `phi` array, written out. -/
theorem sample_curve_phi_eq (R_p e r : ℝ) (N : ℤ) (t1 t2 : ℝ) (samples k : ℕ) :
    (sample_curve R_p e r N t1 t2 samples).phi k
      = Real.arctan (Real.sin ((1 - (N : ℝ)) * (sample_curve R_p e r N t1 t2 samples).t k)
          / (sample_curve R_p e r N t1 t2 samples).denom_safe k) := rfl

/-- The sampler's `X` array, written out. -/
theorem sample_curve_X_eq (R_p e r : ℝ) (N : ℤ) (t1 t2 : ℝ) (samples k : ℕ) :
    (sample_curve R_p e r N t1 t2 samples).X k
      = R_p * Real.cos ((sample_curve R_p e r N t1 t2 samples).t k)
        - r * Real.cos ((sample_curve R_p e r N t1 t2 samples).t k
            + (sample_curve R_p e r N t1 t2 samples).phi k)
        - e * Real.cos ((N : ℝ) * (sample_curve R_p e r N t1 t2 samples).t k) := rfl

/-- The sampler's `Y` array, written out. -/
theorem sample_curve_Y_eq (R_p e r : ℝ) (N : ℤ) (t1 t2 : ℝ) (samples k : ℕ) :
    (sample_curve R_p e r N t1 t2 samples).Y k
      = -R_p * Real.sin ((sample_curve R_p e r N t1 t2 samples).t k)
        + r * Real.sin ((sample_curve R_p e r N t1 t2 samples).t k
            + (sample_curve R_p e r N t1 t2 samples).phi k)
        + e * Real.sin ((N : ℝ) * (sample_curve R_p e r N t1 t2 samples).t k) := rfl

/-! ## Interval cosine soundness (for the `has_singularity` decisions) -/

/-- Interval squaring is sound. -/
theorem isq_mem {I : QI} {x : ℝ} (h : I.memR x) : (isq I).memR (x ^ 2) := by
  obtain ⟨h1, h2⟩ := h
  unfold isq QI.memR
  split_ifs with hlo hhi
  · have hlo' : (0 : ℝ) ≤ (I.lo : ℝ) := by exact_mod_cast hlo
    constructor <;> push_cast <;> nlinarith
  · have hhi' : (I.hi : ℝ) ≤ 0 := by exact_mod_cast hhi
    constructor <;> push_cast <;> nlinarith
  · constructor
    · push_cast
      positivity
    · push_cast
      rcases le_or_lt 0 x with hx0 | hx0
      · nlinarith
      · nlinarith

/-- The quadratic Taylor interval for cosine is sound on `[-1, 1]`. -/
theorem icosSmallQ_mem {I : QI} {x : ℝ} (h : I.memR x) (hlo : -1 ≤ I.lo)
    (hhi : I.hi ≤ 1) : (icosSmallQ I).memR (Real.cos x) := by
  obtain ⟨h1, h2⟩ := h
  have hx1 : |x| ≤ 1 := by
    rw [abs_le]
    refine ⟨le_trans (by exact_mod_cast hlo) h1, le_trans h2 (by exact_mod_cast hhi)⟩
  have hb := abs_le.1 (Real.cos_bound hx1)
  obtain ⟨hs1, hs2⟩ := isq_mem ⟨h1, h2⟩
  have hx4 : |x| ^ 4 ≤ ((isq I).hi : ℝ) * ((isq I).hi : ℝ) := by
    have h0 : (0 : ℝ) ≤ x ^ 2 := sq_nonneg x
    calc |x| ^ 4 = (x ^ 2) ^ 2 := by
          rw [show (4 : ℕ) = 2 * 2 from rfl, pow_mul, sq_abs]
      _ ≤ ((isq I).hi : ℝ) * ((isq I).hi : ℝ) := by nlinarith
  unfold icosSmallQ QI.memR
  obtain ⟨hb1, hb2⟩ := hb
  constructor
  · push_cast
    nlinarith
  · push_cast
    nlinarith

/-- The double-angle interval step is sound. -/
theorem idouble_mem {I : QI} {y : ℝ} (h : I.memR (Real.cos y)) :
    (idouble I).memR (Real.cos (2 * y)) := by
  obtain ⟨hs1, hs2⟩ := isq_mem h
  rw [Real.cos_two_mul]
  unfold idouble QI.memR
  constructor <;> push_cast <;> linarith

/-- The quarter-angle interval cosine is sound on `[0, 8/5]`. -/
theorem icosQuarter_mem {I : QI} {x : ℝ} (h : I.memR x) (h0 : 0 ≤ I.lo)
    (h85 : I.hi ≤ 8/5) : (icosQuarter I).memR (Real.cos x) := by
  obtain ⟨h1, h2⟩ := h
  have hq : QI.memR ⟨I.lo / 4, I.hi / 4⟩ (x / 4) := by
    constructor <;> push_cast <;> linarith
  have hs1 := icosSmallQ_mem hq (by
      show (-1 : ℚ) ≤ I.lo / 4
      linarith) (by
      show (I.hi / 4 : ℚ) ≤ 1
      linarith)
  have hs2 := idouble_mem hs1
  have hs3 := idouble_mem hs2
  have hxx : 2 * (2 * (x / 4)) = x := by ring
  rw [hxx] at hs3
  exact hs3

/-- The rational π bounds really bound π. -/
theorem pi_in_bounds : ((pL : ℚ) : ℝ) < Real.pi ∧ Real.pi < ((pU : ℚ) : ℝ) := by
  constructor
  · have h := Real.pi_gt_d6
    have : ((pL : ℚ) : ℝ) = 3.141592 := by
      unfold pL
      push_cast
      norm_num
    linarith
  · have h := Real.pi_lt_d6
    have : ((pU : ℚ) : ℝ) = 3.141593 := by
      unfold pU
      push_cast
      norm_num
    linarith

/-- Soundness of `checkCore`: when the check succeeds, the cosine at
`2·π·j'/111` stays more than `1e-9` away from `2/5`. -/
theorem checkCore_sound {j' : ℚ} {x : ℝ} (hx : x = 2 * Real.pi * ((j' : ℚ) : ℝ) / 111)
    (h0 : 0 ≤ j') (hc : checkCore j' = true) :
    1 / 1000000000 < |2 / 5 - Real.cos x| := by
  obtain ⟨hpiL, hpiU⟩ := pi_in_bounds
  have hj0 : (0 : ℝ) ≤ ((j' : ℚ) : ℝ) := by exact_mod_cast h0
  have hmem : QI.memR ⟨2 * pL * j' / 111, 2 * pU * j' / 111⟩ x := by
    constructor
    · push_cast
      rw [hx]
      nlinarith
    · push_cast
      rw [hx]
      nlinarith
  unfold checkCore at hc
  by_cases hb : (2 * pU * j' / 111 : ℚ) ≤ 8 / 5
  · rw [if_pos hb, decide_eq_true_eq] at hc
    have hlo : (0 : ℚ) ≤ 2 * pL * j' / 111 := by
      unfold pL
      nlinarith
    have hC := icosQuarter_mem hmem hlo hb
    obtain ⟨hC1, hC2⟩ := hC
    rcases hc with hc | hc
    · have hcast : ((2 / 5 + qeps : ℚ) : ℝ)
          < ((icosQuarter ⟨2 * pL * j' / 111, 2 * pU * j' / 111⟩).lo : ℝ) := by
        exact_mod_cast hc
      rw [abs_sub_comm]
      have hq : ((2 / 5 + qeps : ℚ) : ℝ) = 2 / 5 + 1 / 1000000000 := by
        unfold qeps
        push_cast
        norm_num
      calc (1 : ℝ) / 1000000000 < Real.cos x - 2 / 5 := by
            rw [hq] at hcast
            linarith
        _ ≤ |Real.cos x - 2 / 5| := le_abs_self _
    · have hcast : ((icosQuarter ⟨2 * pL * j' / 111, 2 * pU * j' / 111⟩).hi : ℝ)
          < ((2 / 5 - qeps : ℚ) : ℝ) := by
        exact_mod_cast hc
      have hq : ((2 / 5 - qeps : ℚ) : ℝ) = 2 / 5 - 1 / 1000000000 := by
        unfold qeps
        push_cast
        norm_num
      calc (1 : ℝ) / 1000000000 < 2 / 5 - Real.cos x := by
            rw [hq] at hcast
            linarith
        _ ≤ |2 / 5 - Real.cos x| := le_abs_self _
  · rw [if_neg hb] at hc
    simp only [Bool.and_eq_true, decide_eq_true_eq] at hc
    obtain ⟨⟨hc1, hc2⟩, hc3⟩ := hc
    obtain ⟨hm1, hm2⟩ := hmem
    have hmem2 : QI.memR ⟨pL - 2 * pU * j' / 111, pU - 2 * pL * j' / 111⟩
        (Real.pi - x) := by
      constructor
      · push_cast at hm2 ⊢
        linarith
      · push_cast at hm1 ⊢
        linarith
    have hC := icosQuarter_mem hmem2 hc1 hc2
    obtain ⟨hC1, hC2⟩ := hC
    have hcosx : Real.cos x = -Real.cos (Real.pi - x) := by
      rw [Real.cos_pi_sub]
      ring
    rcases hc3 with hc | hc
    · have hcast : ((2 / 5 + qeps : ℚ) : ℝ)
          < ((-(icosQuarter ⟨pL - 2 * pU * j' / 111, pU - 2 * pL * j' / 111⟩).hi : ℚ) : ℝ) := by
        exact_mod_cast hc
      have hq : ((2 / 5 + qeps : ℚ) : ℝ) = 2 / 5 + 1 / 1000000000 := by
        unfold qeps
        push_cast
        norm_num
      rw [abs_sub_comm]
      calc (1 : ℝ) / 1000000000 < Real.cos x - 2 / 5 := by
            rw [hq] at hcast
            push_cast at hcast
            rw [hcosx]
            linarith
        _ ≤ |Real.cos x - 2 / 5| := le_abs_self _
    · have hcast : ((-(icosQuarter ⟨pL - 2 * pU * j' / 111, pU - 2 * pL * j' / 111⟩).lo : ℚ) : ℝ)
          < ((2 / 5 - qeps : ℚ) : ℝ) := by
        exact_mod_cast hc
      have hq : ((2 / 5 - qeps : ℚ) : ℝ) = 2 / 5 - 1 / 1000000000 := by
        unfold qeps
        push_cast
        norm_num
      calc (1 : ℝ) / 1000000000 < 2 / 5 - Real.cos x := by
            rw [hq] at hcast
            push_cast at hcast
            rw [hcosx]
            linarith
        _ ≤ |2 / 5 - Real.cos x| := le_abs_self _

set_option maxRecDepth 100000 in
/-- All 111 sample residues pass the interval check. -/
theorem checkJ_all : ∀ j ∈ List.range 111, checkJ j = true := by decide

/-- The denominator at ratio `2/5` stays farther than `1e-9` from zero at
every angle `2·π·j/111`. -/
theorem cos_far_111 (j : ℕ) (hj : j < 111) :
    1 / 1000000000 < |2 / 5 - Real.cos (2 * Real.pi * (j : ℝ) / 111)| := by
  have hc : checkJ j = true := checkJ_all j (List.mem_range.2 hj)
  unfold checkJ at hc
  by_cases hA : (j : ℚ) ≤ 111 - (j : ℚ)
  · rw [min_eq_left hA] at hc
    exact checkCore_sound (by push_cast; ring) (by positivity) hc
  · push_neg at hA
    rw [min_eq_right (le_of_lt hA)] at hc
    have hcos : Real.cos (2 * Real.pi * (j : ℝ) / 111)
        = Real.cos (2 * Real.pi * ((111 - (j : ℚ) : ℚ) : ℝ) / 111) := by
      have h111 : ((111 - (j : ℚ) : ℚ) : ℝ) = 111 - (j : ℝ) := by push_cast; ring
      rw [h111, show 2 * Real.pi * (111 - (j : ℝ)) / 111
          = 2 * Real.pi - 2 * Real.pi * (j : ℝ) / 111 by ring,
        Real.cos_two_pi_sub]
    rw [hcos]
    have h0 : (0 : ℚ) ≤ 111 - (j : ℚ) := by
      have : (j : ℚ) ≤ 111 := by exact_mod_cast le_of_lt hj
      linarith
    exact checkCore_sound rfl h0 hc

/-- At ratio `2/5` (e.g. `R_p = 10`, `e = 2.5`, `N = 10`) no default sample
denominator comes within `1e-9` of zero. -/
theorem no_sing_two_fifths (k : ℕ) (_hk : k < 1000) :
    ¬ (|(2 : ℝ) / 5 - Real.cos ((1 - ((10 : ℤ) : ℝ)) * linspace 0 (2 * Real.pi) 1000 k)|
        ≤ 1 / 1000000000) := by
  intro hcl
  have harg : (1 - ((10 : ℤ) : ℝ)) * linspace 0 (2 * Real.pi) 1000 k
      = -(2 * Real.pi * (k : ℝ) / 111) := by
    unfold linspace
    push_cast
    ring
  rw [harg, Real.cos_neg] at hcl
  have hsplit : 2 * Real.pi * (k : ℝ) / 111
      = 2 * Real.pi * ((k % 111 : ℕ) : ℝ) / 111
        + (((k / 111 : ℕ) : ℤ) : ℝ) * (2 * Real.pi) := by
    have hk' : (k : ℝ) = ((k % 111 : ℕ) : ℝ) + 111 * ((k / 111 : ℕ) : ℝ) := by
      exact_mod_cast (Nat.mod_add_div k 111).symm
    rw [Int.cast_natCast, hk']
    ring
  rw [hsplit, Real.cos_add_int_mul_two_pi] at hcl
  exact absurd hcl (not_le.2 (cos_far_111 (k % 111) (Nat.mod_lt k (by norm_num))))

/-- Arctangent is below the identity on nonnegative reals. -/
theorem arctan_le_self_of_nonneg {x : ℝ} (hx : 0 ≤ x) : Real.arctan x ≤ x := by
  rcases eq_or_lt_of_le hx with h | h
  · rw [← h, Real.arctan_zero]
  · have h1 : 0 < Real.arctan x := by
      have := Real.arctan_strictMono h
      rwa [Real.arctan_zero] at this
    have h2 : Real.arctan x < Real.pi / 2 := Real.arctan_lt_pi_div_two x
    have h3 := Real.lt_tan h1 h2
    rw [Real.tan_arctan] at h3
    exact le_of_lt h3

/-- A lower bound for the arctangent of a positive real. -/
theorem pi_div_two_sub_inv_le_arctan {x : ℝ} (hx : 0 < x) :
    Real.pi / 2 - 1 / x ≤ Real.arctan x := by
  have h := Real.arctan_inv_of_pos hx
  have h2 : Real.arctan x⁻¹ ≤ x⁻¹ := arctan_le_self_of_nonneg (by positivity)
  rw [h] at h2
  rw [one_div]
  linarith

/-- C2 (amended): when every baked constant is exactly representable in 12
significant digits (the formatter leaves `R_p`, `e`, `r`, `1-N` and
`R_p/(e·N)` unchanged) and no sample point triggers the epsilon
substitution, evaluating the text expressions at the sampler's `t` values
reproduces the numeric `X` and `Y` exactly. -/
theorem C2_text_matches_sampler_exact (R_p e r : ℚ) (N : ℤ) (t1 t2 : ℝ)
    (samples : ℕ)
    (hRp : (gfmt 12 R_p).val = R_p) (hee : (gfmt 12 e).val = e)
    (hrr : (gfmt 12 r).val = r)
    (hNN : (gfmt 12 ((1 - N : ℤ) : ℚ)).val = ((1 - N : ℤ) : ℚ))
    (hRa : (gfmt 12 (R_p / (e * N))).val = R_p / (e * N))
    (hclean : ∀ k, k < samples →
      ¬ (|(sample_curve (R_p : ℝ) (e : ℝ) (r : ℝ) N t1 t2 samples).denom k| ≤ epsR)) :
    ∀ k, k < samples →
      textEvalX R_p e r N ((sample_curve (R_p : ℝ) (e : ℝ) (r : ℝ) N t1 t2 samples).t k)
          = (sample_curve (R_p : ℝ) (e : ℝ) (r : ℝ) N t1 t2 samples).X k ∧
      textEvalY R_p e r N ((sample_curve (R_p : ℝ) (e : ℝ) (r : ℝ) N t1 t2 samples).t k)
          = (sample_curve (R_p : ℝ) (e : ℝ) (r : ℝ) N t1 t2 samples).Y k := by
  intro k hk
  have hcl := hclean k hk
  have hds := sample_curve_denom_safe_eq (R_p : ℝ) (e : ℝ) (r : ℝ) N t1 t2 samples k
  rw [if_neg hcl] at hds
  constructor
  · rw [sample_curve_X_eq, sample_curve_phi_eq, hds, sample_curve_denom_eq]
    unfold textEvalX
    rw [hRp, hee, hrr, hNN, hRa]
    push_cast
    ring_nf
  · rw [sample_curve_Y_eq, sample_curve_phi_eq, hds, sample_curve_denom_eq]
    unfold textEvalY
    rw [hRp, hee, hrr, hNN, hRa]
    push_cast
    ring_nf

/-- Witness for `C2_text_matches_sampler_exact` at `R_p = 50`, `e = 2.5`,
`r = 2`, `N = 10` with the default sampling controls (ratio `2`: all
constants 12-digit representable and no sample is singular). -/
theorem C2_witness :
    ((gfmt 12 (50 : ℚ)).val = 50 ∧ (gfmt 12 (5/2 : ℚ)).val = 5/2 ∧
      (gfmt 12 (2 : ℚ)).val = 2 ∧
      (gfmt 12 ((1 - (10 : ℤ) : ℤ) : ℚ)).val = ((1 - (10 : ℤ) : ℤ) : ℚ) ∧
      (gfmt 12 ((50 : ℚ) / ((5/2) * (10 : ℤ)))).val = (50 : ℚ) / ((5/2) * (10 : ℤ)) ∧
      (∀ k, k < 1000 →
        ¬ (|(sample_curve ((50 : ℚ) : ℝ) ((5/2 : ℚ) : ℝ) ((2 : ℚ) : ℝ) 10
            0 (2*Real.pi) 1000).denom k| ≤ epsR))) ∧
    (∀ k, k < 1000 →
      textEvalX 50 (5/2) 2 10
          ((sample_curve ((50 : ℚ) : ℝ) ((5/2 : ℚ) : ℝ) ((2 : ℚ) : ℝ) 10
            0 (2*Real.pi) 1000).t k)
        = (sample_curve ((50 : ℚ) : ℝ) ((5/2 : ℚ) : ℝ) ((2 : ℚ) : ℝ) 10
            0 (2*Real.pi) 1000).X k ∧
      textEvalY 50 (5/2) 2 10
          ((sample_curve ((50 : ℚ) : ℝ) ((5/2 : ℚ) : ℝ) ((2 : ℚ) : ℝ) 10
            0 (2*Real.pi) 1000).t k)
        = (sample_curve ((50 : ℚ) : ℝ) ((5/2 : ℚ) : ℝ) ((2 : ℚ) : ℝ) 10
            0 (2*Real.pi) 1000).Y k) :=
  ⟨⟨by decide, by decide, by decide, by decide, by decide,
    fun k _ => denom_far 0 (2*Real.pi) 1000 (by push_cast; norm_num) k⟩,
    C2_text_matches_sampler_exact 50 (5/2) 2 10 0 (2*Real.pi) 1000
      (by decide) (by decide) (by decide) (by decide) (by decide)
      (fun k _ => denom_far 0 (2*Real.pi) 1000 (by push_cast; norm_num) k)⟩

set_option maxRecDepth 100000 in
set_option maxHeartbeats 1000000 in
/-- C2 fails on the code in general: at the valid parameters
`R_p = 17.67766952966325`, `e = 2.5`, `r = 2`, `N = 10` (ratio
`0.70710678118653`, just below `cos(π/4) = √2/2`) and sampling interval
`t1 = t2 = π/36`, the sampler substitutes `-1e-9` for the first sample's
denominator (≈ `-1.75e-14`), driving its arctangent to `+π/2`, while the
text expression's 12-digit ratio literal `0.707106781187` lies just above
`√2/2`, driving the evaluated arctangent to `-π/2`.  The two paths differ
by more than `1/3` in `X` — far beyond any 12-significant-digit agreement
bound (the values involved are of magnitude ≈ 20). -/
theorem C2_counterexample :
    ((0 : ℚ) < 1767766952966325/100000000000000 ∧ (0 : ℚ) < 5/2 ∧
      (0 : ℚ) < 2 ∧ (2 : ℤ) ≤ 10) ∧
    1/3 < |textEvalX (1767766952966325/100000000000000) (5/2) 2 10
        ((sample_curve ((1767766952966325/100000000000000 : ℚ) : ℝ) (5/2) 2 10
          (Real.pi/36) (Real.pi/36) 1000).t 0)
      - (sample_curve ((1767766952966325/100000000000000 : ℚ) : ℝ) (5/2) 2 10
          (Real.pi/36) (Real.pi/36) 1000).X 0| := by
  refine ⟨⟨by norm_num, by norm_num, by norm_num, by norm_num⟩, ?_⟩
  have hpi4 : (3.1415 : ℝ) < Real.pi := Real.pi_gt_d4
  have hpi4' : Real.pi < 3.1416 := Real.pi_lt_d4
  have hs2pos : (0 : ℝ) < Real.sqrt 2 := Real.sqrt_pos.2 (by norm_num)
  have hA : (141421356237306/100000000000000 : ℝ) < Real.sqrt 2 :=
    (Real.lt_sqrt (by norm_num)).2 (by norm_num)
  have hB : Real.sqrt 2 < (141421356437306/100000000000000 : ℝ) :=
    (Real.sqrt_lt' (by norm_num)).2 (by norm_num)
  have hC2 : Real.sqrt 2 < (1414213562374/1000000000000 : ℝ) :=
    (Real.sqrt_lt' (by norm_num)).2 (by norm_num)
  set A : ℝ := ((1767766952966325/100000000000000 : ℚ) : ℝ) with hAdef
  have hAval : A = 1767766952966325/100000000000000 := by
    rw [hAdef]
    push_cast
    norm_num
  have hlin : linspace (Real.pi/36) (Real.pi/36) 1000 0 = Real.pi/36 := by
    unfold linspace
    norm_num
  have hratio : A / ((5/2) * ((10 : ℤ) : ℝ)) = 70710678118653/100000000000000 := by
    rw [hAval]
    push_cast
    norm_num
  have hang : (1 - ((10 : ℤ) : ℝ)) * (Real.pi/36) = -(Real.pi/4) := by
    push_cast
    ring
  have hcosang : Real.cos ((1 - ((10 : ℤ) : ℝ)) * (Real.pi/36)) = Real.sqrt 2 / 2 := by
    rw [hang, Real.cos_neg, Real.cos_pi_div_four]
  have hsinang : Real.sin ((1 - ((10 : ℤ) : ℝ)) * (Real.pi/36)) = -(Real.sqrt 2 / 2) := by
    rw [hang, Real.sin_neg, Real.sin_pi_div_four]
  have hden : (sample_curve A (5/2) 2 10 (Real.pi/36) (Real.pi/36) 1000).denom 0
      = 70710678118653/100000000000000 - Real.sqrt 2 / 2 := by
    rw [sample_curve_denom_eq, sample_curve_t_eq, hlin, hcosang, hratio]
  have hden_neg : (sample_curve A (5/2) 2 10 (Real.pi/36) (Real.pi/36) 1000).denom 0 < 0 := by
    rw [hden]
    linarith
  have hden_close : |(sample_curve A (5/2) 2 10 (Real.pi/36) (Real.pi/36) 1000).denom 0|
      ≤ epsR := by
    rw [hden]
    show |(70710678118653/100000000000000 : ℝ) - Real.sqrt 2 / 2| ≤ 1/1000000000
    rw [abs_of_neg (by linarith)]
    linarith
  have hsafe : (sample_curve A (5/2) 2 10 (Real.pi/36) (Real.pi/36) 1000).denom_safe 0
      = -(1/1000000000) := by
    rw [sample_curve_denom_safe_eq, if_pos hden_close]
    unfold npSign
    rw [if_pos hden_neg]
    show (-1 : ℝ) * epsR = -(1/1000000000)
    unfold epsR
    ring
  have hphin : (sample_curve A (5/2) 2 10 (Real.pi/36) (Real.pi/36) 1000).phi 0
      = Real.arctan (Real.sqrt 2 / 2 * 1000000000) := by
    rw [sample_curve_phi_eq, sample_curve_t_eq, hlin, hsinang, hsafe]
    congr 1
    rw [neg_div_neg_eq, one_div, div_eq_mul_inv, inv_inv]
  have hz : (500000000 : ℝ) ≤ Real.sqrt 2 / 2 * 1000000000 := by
    nlinarith [hA]
  have hphin_lt : Real.arctan (Real.sqrt 2 / 2 * 1000000000) < Real.pi/2 :=
    Real.arctan_lt_pi_div_two _
  have hphin_ge : Real.pi/2 - 2/1000000000
      ≤ Real.arctan (Real.sqrt 2 / 2 * 1000000000) := by
    have h := pi_div_two_sub_inv_le_arctan
      (lt_of_lt_of_le (by norm_num : (0:ℝ) < 500000000) hz)
    have hinv : 1 / (Real.sqrt 2 / 2 * 1000000000) ≤ 2/1000000000 := by
      rw [div_le_div_iff₀ (by positivity) (by norm_num)]
      nlinarith [hz]
    linarith
  have hfmtRp : (gfmt 12 (1767766952966325/100000000000000 : ℚ)).val
      = 176776695297/10000000000 := by decide
  have hfmte : (gfmt 12 (5/2 : ℚ)).val = 5/2 := by decide
  have hfmtr : (gfmt 12 (2 : ℚ)).val = 2 := by decide
  have hfmtN : (gfmt 12 ((1 - 10 : ℤ) : ℚ)).val = -9 := by decide
  have hfmtRa : (gfmt 12 ((1767766952966325/100000000000000 : ℚ)
      / ((5/2) * ((10 : ℤ) : ℚ)))).val = 707106781187/1000000000000 := by decide
  have hdt_pos : (0 : ℝ) < (707106781187/1000000000000 : ℝ) - Real.sqrt 2 / 2 := by
    linarith
  have hdt_le : (707106781187/1000000000000 : ℝ) - Real.sqrt 2 / 2
      ≤ Real.sqrt 2 / 2 := by
    linarith
  have harg_le : -(Real.sqrt 2 / 2)
      / ((707106781187/1000000000000 : ℝ) - Real.sqrt 2 / 2) ≤ -1 := by
    rw [div_le_iff₀ hdt_pos]
    linarith
  have hphit_le : Real.arctan (-(Real.sqrt 2 / 2)
      / ((707106781187/1000000000000 : ℝ) - Real.sqrt 2 / 2)) ≤ -(Real.pi/4) := by
    have h1 := Real.arctan_strictMono.monotone harg_le
    have h2 : Real.arctan (-1) = -(Real.pi/4) := by
      rw [show (-1 : ℝ) = -(1 : ℝ) from rfl, Real.arctan_neg, Real.arctan_one]
    rw [h2] at h1
    exact h1
  have hphit_gt : -(Real.pi/2) < Real.arctan (-(Real.sqrt 2 / 2)
      / ((707106781187/1000000000000 : ℝ) - Real.sqrt 2 / 2)) :=
    Real.neg_pi_div_two_lt_arctan _
  have hx_lo : (872/10000 : ℝ) ≤ Real.pi/36 := by linarith
  have hx_hi : Real.pi/36 ≤ (873/10000 : ℝ) := by linarith
  have hsin36_lo : (869/10000 : ℝ) < Real.sin (Real.pi/36) := by
    have h := Real.sin_gt_sub_cube (by linarith : (0:ℝ) < Real.pi/36)
      (by linarith : Real.pi/36 ≤ 1)
    have hx3 : (Real.pi/36) ^ 3 ≤ (873/10000 : ℝ) ^ 3 :=
      pow_le_pow_left₀ (by linarith) hx_hi 3
    linarith
  have hsin36e_lo : (869/10000 : ℝ) < Real.sin (Real.pi/36 - 2/1000000000) := by
    have h := Real.sin_gt_sub_cube
      (by linarith : (0:ℝ) < Real.pi/36 - 2/1000000000)
      (by linarith : Real.pi/36 - 2/1000000000 ≤ 1)
    have hx3 : (Real.pi/36 - 2/1000000000) ^ 3 ≤ (873/10000 : ℝ) ^ 3 :=
      pow_le_pow_left₀ (by linarith) (by linarith) 3
    linarith
  have hcos_phit : Real.sin (Real.pi/36)
      < Real.cos (Real.pi/36 + Real.arctan (-(Real.sqrt 2 / 2)
          / ((707106781187/1000000000000 : ℝ) - Real.sqrt 2 / 2))) := by
    have h0a : 0 ≤ -(Real.pi/36 + Real.arctan (-(Real.sqrt 2 / 2)
        / ((707106781187/1000000000000 : ℝ) - Real.sqrt 2 / 2))) := by
      have := hphit_le
      linarith
    have hb : Real.pi/2 - Real.pi/36 ≤ Real.pi := by linarith
    have hab : -(Real.pi/36 + Real.arctan (-(Real.sqrt 2 / 2)
        / ((707106781187/1000000000000 : ℝ) - Real.sqrt 2 / 2)))
        < Real.pi/2 - Real.pi/36 := by
      have := hphit_gt
      linarith
    have h := Real.cos_lt_cos_of_nonneg_of_le_pi h0a hb hab
    rw [Real.cos_pi_div_two_sub, Real.cos_neg] at h
    exact h
  have hcos_phin : Real.cos (Real.pi/36 + Real.arctan (Real.sqrt 2 / 2 * 1000000000))
      ≤ -Real.sin (Real.pi/36 - 2/1000000000) := by
    have hxI : (0 : ℝ) ≤ Real.pi/2 + (Real.pi/36 - 2/1000000000) := by linarith
    have hyI : Real.pi/36 + Real.arctan (Real.sqrt 2 / 2 * 1000000000) ≤ Real.pi := by
      linarith
    have hxy : Real.pi/2 + (Real.pi/36 - 2/1000000000)
        ≤ Real.pi/36 + Real.arctan (Real.sqrt 2 / 2 * 1000000000) := by
      linarith
    have h := Real.cos_le_cos_of_nonneg_of_le_pi hxI hyI hxy
    have hcpa : Real.cos (Real.pi/2 + (Real.pi/36 - 2/1000000000))
        = -Real.sin (Real.pi/36 - 2/1000000000) := by
      rw [Real.cos_add, Real.cos_pi_div_two, Real.sin_pi_div_two]
      ring
    rw [hcpa] at h
    exact h
  have hXval : (sample_curve A (5/2) 2 10 (Real.pi/36) (Real.pi/36) 1000).X 0
      = A * Real.cos (Real.pi/36)
        - 2 * Real.cos (Real.pi/36 + Real.arctan (Real.sqrt 2 / 2 * 1000000000))
        - (5/2) * Real.cos (((10 : ℤ) : ℝ) * (Real.pi/36)) := by
    rw [sample_curve_X_eq, sample_curve_t_eq, hlin, hphin]
  have htext : textEvalX (1767766952966325/100000000000000) (5/2) 2 10 (Real.pi/36)
      = (176776695297/10000000000 : ℝ) * Real.cos (Real.pi/36)
        - 2 * Real.cos (Real.pi/36 + Real.arctan (-(Real.sqrt 2 / 2)
            / ((707106781187/1000000000000 : ℝ) - Real.sqrt 2 / 2)))
        - (5/2) * Real.cos (((10 : ℤ) : ℝ) * (Real.pi/36)) := by
    unfold textEvalX
    rw [hfmtRp, hfmte, hfmtr, hfmtN, hfmtRa]
    push_cast
    rw [show (-9 : ℝ) * (Real.pi/36) = -(Real.pi/4) by ring,
      Real.cos_neg, Real.cos_pi_div_four, Real.sin_neg, Real.sin_pi_div_four]
  rw [sample_curve_t_eq, hlin, htext, hXval]
  have hcosT1 : Real.cos (Real.pi/36) ≤ 1 := Real.cos_le_one _
  have hcosT2 : -1 ≤ Real.cos (Real.pi/36) := Real.neg_one_le_cos _
  have hdelta : (176776695297/10000000000 : ℝ) * Real.cos (Real.pi/36)
        - 2 * Real.cos (Real.pi/36 + Real.arctan (-(Real.sqrt 2 / 2)
            / ((707106781187/1000000000000 : ℝ) - Real.sqrt 2 / 2)))
        - (5/2) * Real.cos (((10 : ℤ) : ℝ) * (Real.pi/36))
        - (A * Real.cos (Real.pi/36)
          - 2 * Real.cos (Real.pi/36 + Real.arctan (Real.sqrt 2 / 2 * 1000000000))
          - (5/2) * Real.cos (((10 : ℤ) : ℝ) * (Real.pi/36))) < -(1/3) := by
    rw [hAval]
    nlinarith [hcos_phit, hcos_phin, hsin36_lo, hsin36e_lo, hcosT1, hcosT2]
  calc (1/3 : ℝ)
      < -((176776695297/10000000000 : ℝ) * Real.cos (Real.pi/36)
        - 2 * Real.cos (Real.pi/36 + Real.arctan (-(Real.sqrt 2 / 2)
            / ((707106781187/1000000000000 : ℝ) - Real.sqrt 2 / 2)))
        - (5/2) * Real.cos (((10 : ℤ) : ℝ) * (Real.pi/36))
        - (A * Real.cos (Real.pi/36)
          - 2 * Real.cos (Real.pi/36 + Real.arctan (Real.sqrt 2 / 2 * 1000000000))
          - (5/2) * Real.cos (((10 : ℤ) : ℝ) * (Real.pi/36)))) := by linarith
    _ ≤ |(176776695297/10000000000 : ℝ) * Real.cos (Real.pi/36)
        - 2 * Real.cos (Real.pi/36 + Real.arctan (-(Real.sqrt 2 / 2)
            / ((707106781187/1000000000000 : ℝ) - Real.sqrt 2 / 2)))
        - (5/2) * Real.cos (((10 : ℤ) : ℝ) * (Real.pi/36))
        - (A * Real.cos (Real.pi/36)
          - 2 * Real.cos (Real.pi/36 + Real.arctan (Real.sqrt 2 / 2 * 1000000000))
          - (5/2) * Real.cos (((10 : ℤ) : ℝ) * (Real.pi/36)))| := neg_le_abs _

/-- C1: the claim states that a sample denominator within `1e-9` of zero is
replaced by a signed epsilon of magnitude exactly `1e-9`, an exactly-zero
denominator being treated as positive (`+1e-9`), so that `sample_curve`
never divides by zero.  The code instead multiplies `np.sign(denom)` by the
epsilon, and `np.sign 0 = 0`: at `R_p = 25`, `e = 2.5`, `r = 2`, `N = 10`
with the default sampling controls, the first sample (`t = 0`) has
denominator exactly `0` (`R_p/(e·N) = 1 = cos 0`), the substitution branch
is taken, and the substituted divisor is `0`, not `+1e-9` — the division is
a literal division by zero (numpy produces `0/0 = NaN` there). -/
theorem C1_zero_denominator_not_substituted :
    (sample_curve 25 (5/2) 2 10 0 (2*Real.pi) 1000).denom 0 = 0 ∧
    |(sample_curve 25 (5/2) 2 10 0 (2*Real.pi) 1000).denom 0| ≤ epsR ∧
    (sample_curve 25 (5/2) 2 10 0 (2*Real.pi) 1000).denom_safe 0 = 0 := by
  have ht : linspace 0 (2*Real.pi) 1000 0 = 0 := by simp [linspace]
  have hd : (sample_curve 25 (5/2) 2 10 0 (2*Real.pi) 1000).denom 0 = 0 := by
    simp only [sample_curve, ht]
    norm_num
  refine ⟨hd, ?_, ?_⟩
  · rw [hd]
    simp [epsR]
  · simp only [sample_curve, ht] at hd ⊢
    rw [hd]
    simp [npSign, epsR]

/-- C7: the sampler's `has_singularity` flag holds exactly when some sample
index below `samples` has its denominator `R_p/(e·N) - cos((1-N)·t_k)`
within the `1e-9` tolerance of zero (which is exactly the epsilon
substitution condition). -/
theorem C7_flag_iff_close_sample (R_p e r : ℝ) (N : ℤ) (t1 t2 : ℝ) (samples : ℕ)
    (_hpos : 0 < e * (N : ℝ)) :
    ((sample_curve R_p e r N t1 t2 samples).has_singularity ↔
      ∃ k, k < samples ∧
        |R_p / (e * (N : ℝ)) - Real.cos ((1 - (N : ℝ)) *
            (t1 + (t2 - t1) * (k : ℝ) / ((samples : ℝ) - 1)))| ≤ 1 / 1000000000) :=
  Iff.rfl

/-- Witness for `C7_flag_iff_close_sample` at `R_p = 50`, `e = 2.5`,
`r = 2`, `N = 10` with the default sampling controls. -/
theorem C7_witness :
    (0 < (5/2 : ℝ) * ((10 : ℤ) : ℝ)) ∧
    ((sample_curve 50 (5/2) 2 10 0 (2*Real.pi) 1000).has_singularity ↔
      ∃ k : ℕ, k < 1000 ∧
        |(50 : ℝ) / ((5/2) * ((10 : ℤ) : ℝ)) - Real.cos ((1 - ((10 : ℤ) : ℝ)) *
            (0 + (2*Real.pi - 0) * (k : ℝ) / (((1000 : ℕ) : ℝ) - 1)))| ≤ 1 / 1000000000) :=
  ⟨by norm_num, C7_flag_iff_close_sample 50 (5/2) 2 10 0 (2*Real.pi) 1000 (by norm_num)⟩

/-- C10: when `e·N` is positive and the ratio `R_p/(e·N)` has magnitude
strictly greater than `1 + 1e-9`, the sampler's `has_singularity` flag is
false for every sampling interval and sample count, since every denominator
satisfies `|ratio - cos θ| ≥ |ratio| - 1 > 1e-9`. -/
theorem C10_flag_false_when_ratio_far (R_p e r : ℝ) (N : ℤ) (t1 t2 : ℝ) (samples : ℕ)
    (_hpos : 0 < e * (N : ℝ))
    (hfar : 1 + 1 / 1000000000 < |R_p / (e * (N : ℝ))|) :
    ¬ (sample_curve R_p e r N t1 t2 samples).has_singularity := by
  rintro ⟨k, -, hcl⟩
  exact denom_far t1 t2 samples hfar k hcl

/-- Witness for `C10_flag_false_when_ratio_far` at `R_p = 50`, `e = 2.5`,
`r = 2`, `N = 10` (ratio `2`). -/
theorem C10_witness :
    ((0 < (5/2 : ℝ) * ((10 : ℤ) : ℝ)) ∧
      (1 + 1 / 1000000000 < |(50 : ℝ) / ((5/2) * ((10 : ℤ) : ℝ))|)) ∧
    ¬ (sample_curve 50 (5/2) 2 10 0 (2*Real.pi) 1000).has_singularity :=
  ⟨⟨by norm_num, by norm_num⟩,
    C10_flag_false_when_ratio_far 50 (5/2) 2 10 0 (2*Real.pi) 1000
      (by norm_num) (by norm_num)⟩

/-- C5 fails on the code for its first input: at `R_p = 10`, `e = 2.5`,
`r = 2`, `N = 10` (ratio `0.4 ∈ [-1, 1]`) with the default sampling
controls, `has_singularity` is FALSE — the flag requires an actual sample
denominator within `1e-9` of zero, and the nearest default sample
denominator has magnitude about `0.0248` (proved by rational interval
arithmetic over all 111 distinct sample angles). -/
theorem C5_counterexample :
    ¬ (sample_curve 10 (5/2) 2 10 0 (2*Real.pi) 1000).has_singularity := by
  rintro ⟨k, hk, hcl⟩
  apply no_sing_two_fifths k hk
  have hr : (10 : ℝ) / ((5/2) * ((10 : ℤ) : ℝ)) = 2 / 5 := by
    push_cast
    norm_num
  rw [← hr]
  exact hcl

/-- C5 (amended): with the default sampling controls, `has_singularity` is
false BOTH at `R_p = 10, e = 2.5, r = 2, N = 10` (ratio `0.4`: no default
sample denominator comes within `1e-9` of zero; the nearest approach is
about `0.0248`) and at `R_p = 50, e = 2.5, r = 2, N = 10` (ratio `2`). -/
theorem C5_flags_both_false :
    ¬ (sample_curve 10 (5/2) 2 10 0 (2*Real.pi) 1000).has_singularity ∧
    ¬ (sample_curve 50 (5/2) 2 10 0 (2*Real.pi) 1000).has_singularity := by
  constructor
  · rintro ⟨k, hk, hcl⟩
    apply no_sing_two_fifths k hk
    have hr : (10 : ℝ) / ((5/2) * ((10 : ℤ) : ℝ)) = 2 / 5 := by
      push_cast
      norm_num
    rw [← hr]
    exact hcl
  · rintro ⟨k, -, hcl⟩
    exact denom_far 0 (2*Real.pi) 1000 (by norm_num) k hcl

/-- C4: the validator's `ok` is true exactly when rules 1–3 all pass (the
rule-4 warning never flips it), and the message list is the in-order
concatenation of at most one message per rule. -/
theorem C4_ok_iff_and_message_order (R_p e r N : ℚ) (b : Bool) :
    ((validate_inputs R_p e r N b).1 = true ↔
      ((b = true ∧ 2 ≤ N) ∧ (0 < R_p ∧ 0 < e ∧ 0 < r) ∧ e * N ≠ 0)) ∧
    (validate_inputs R_p e r N b).2 =
      (if b = true ∧ 2 ≤ N then [] else [msg_pins]) ++
        ((if 0 < R_p ∧ 0 < e ∧ 0 < r then [] else [msg_positive]) ++
          (if e * N = 0 then [msg_nonzero]
           else if -1 ≤ R_p / (e * N) ∧ R_p / (e * N) ≤ 1 then
             [msg_warning (R_p / (e * N))]
           else [])) := by
  have h2' : (0 < R_p ∧ 0 < e ∧ 0 < r) ↔ ¬ (R_p ≤ 0 ∨ e ≤ 0 ∨ r ≤ 0) := by
    simp [not_or, not_le]
  by_cases h1 : b = true ∧ 2 ≤ N <;> by_cases h2 : R_p ≤ 0 ∨ e ≤ 0 ∨ r ≤ 0 <;>
    by_cases h3 : e * N = 0 <;>
    by_cases h4 : -1 ≤ R_p / (e * N) ∧ R_p / (e * N) ≤ 1 <;>
    simp [validate_inputs, h1, h2, h3, h4, h2']

/-- C6 fails on the code: at `R_p = -1`, `e = 2.5`, `r = 2`, `N = 10`,
rule 2 (positivity) fails, yet the rule-4 singularity warning is still
appended (the warning is guarded only by rule 3, `e·N ≠ 0`), so the
messages do not consist of the positivity error alone. -/
theorem C6_counterexample :
    (validate_inputs (-1) (5/2) 2 10 true).1 = false ∧
    (validate_inputs (-1) (5/2) 2 10 true).2
      = [msg_positive, msg_warning (-1/25)] ∧
    msg_warning (-1/25) ≠ msg_positive ∧ ((-1 : ℚ) ≤ 0) := by
  refine ⟨by decide, by decide, by decide, by decide⟩

/-- C6 (amended): the rule-4 warning is appended exactly when `e·N ≠ 0`
and the ratio lies in `[-1, 1]`, regardless of whether rules 1–2 pass. -/
theorem C6_warning_independent_of_rules_1_2 (R_p e r N : ℚ) (b : Bool)
    (h3 : e * N ≠ 0) (hlo : -1 ≤ R_p / (e * N)) (hhi : R_p / (e * N) ≤ 1) :
    (validate_inputs R_p e r N b).2 =
      ((if b = true ∧ 2 ≤ N then [] else [msg_pins]) ++
        (if 0 < R_p ∧ 0 < e ∧ 0 < r then [] else [msg_positive]))
        ++ [msg_warning (R_p / (e * N))] := by
  have h2' : (0 < R_p ∧ 0 < e ∧ 0 < r) ↔ ¬ (R_p ≤ 0 ∨ e ≤ 0 ∨ r ≤ 0) := by
    simp [not_or, not_le]
  have h4 : -1 ≤ R_p / (e * N) ∧ R_p / (e * N) ≤ 1 := ⟨hlo, hhi⟩
  by_cases h1 : b = true ∧ 2 ≤ N <;> by_cases h2 : R_p ≤ 0 ∨ e ≤ 0 ∨ r ≤ 0 <;>
    simp [validate_inputs, h1, h2, h3, h4, h2']

/-- Witness for `C6_warning_independent_of_rules_1_2` at
`R_p = -1`, `e = 2.5`, `r = 2`, `N = 10`. -/
theorem C6_witness :
    (((5/2 : ℚ) * 10 ≠ 0) ∧ (-1 ≤ (-1 : ℚ) / ((5/2) * 10)) ∧
      ((-1 : ℚ) / ((5/2) * 10) ≤ 1)) ∧
    (validate_inputs (-1) (5/2) 2 10 true).2 =
      ((if (true = true ∧ (2 : ℚ) ≤ 10) then [] else [msg_pins]) ++
        (if ((0 : ℚ) < -1 ∧ (0 : ℚ) < 5/2 ∧ (0 : ℚ) < 2) then [] else [msg_positive]))
        ++ [msg_warning ((-1) / ((5/2) * 10))] :=
  ⟨⟨by decide, by decide, by decide⟩,
    C6_warning_independent_of_rules_1_2 (-1) (5/2) 2 10 true
      (by decide) (by decide) (by decide)⟩

/-- C9 fails on the code: the rule-1 error text is
`"Number of pins must be an integer ≥ 2."`, not
`"N must be an integer ≥ 2."` — at `N = 1` (violating rule 1) the claimed
text appears nowhere in the messages. -/
theorem C9_counterexample :
    ¬ ("N must be an integer ≥ 2." ∈ (validate_inputs 50 (5/2) 2 1 true).2) ∧
    (validate_inputs 50 (5/2) 2 1 true).2 = [msg_pins] ∧
    msg_pins ≠ "N must be an integer ≥ 2." := by
  refine ⟨by decide, by decide, by decide⟩

/-- C9 (amended): whenever rule 1 fails (`N` not an integer or `N < 2`),
the validator appends — in first position — an error whose text is exactly
`"Number of pins must be an integer ≥ 2."`. -/
theorem C9_pins_error_message (R_p e r N : ℚ) (b : Bool)
    (h : ¬ (b = true ∧ 2 ≤ N)) :
    msg_pins ∈ (validate_inputs R_p e r N b).2 ∧
    (validate_inputs R_p e r N b).2.head? = some msg_pins := by
  unfold validate_inputs
  simp only [h, if_true, if_false, not_false_eq_true]
  split_ifs <;> simp

/-- Witness for `C9_pins_error_message` at `N = 1`. -/
theorem C9_witness :
    (¬ (true = true ∧ (2 : ℚ) ≤ 1)) ∧
    (msg_pins ∈ (validate_inputs 50 (5/2) 2 1 true).2 ∧
      (validate_inputs 50 (5/2) 2 1 true).2.head? = some msg_pins) :=
  ⟨by decide, C9_pins_error_message 50 (5/2) 2 1 true (by decide)⟩

/-! ## C3: lexical analysis of the built expressions -/

theorem runsAuxF_congr : ∀ (fuel fuel' : ℕ) (p : Option Char) (l : List Char),
    l.length ≤ fuel → l.length ≤ fuel' → runsAuxF fuel p l = runsAuxF fuel' p l := by
  intro fuel
  induction fuel with
  | zero =>
    intro fuel' p l h h'
    rw [List.eq_nil_of_length_eq_zero (Nat.le_zero.1 h)]
    cases fuel' <;> rfl
  | succ n ih =>
    intro fuel' p l h h'
    match fuel', l with
    | fuel', [] => cases fuel' <;> rfl
    | 0, l =>
      rw [List.eq_nil_of_length_eq_zero (Nat.le_zero.1 h')]
      rfl
    | m + 1, c :: cs =>
      have hlen : cs.length ≤ n := by simpa using h
      have hlen' : cs.length ≤ m := by simpa using h'
      have hdrop : (cs.dropWhile Char.isAlpha).length ≤ cs.length :=
        (List.dropWhile_sublist _).length_le
      simp only [runsAuxF]
      by_cases hc : c.isAlpha
      · rw [if_pos hc, if_pos hc]
        congr 1
        exact ih m none _ (le_trans hdrop hlen) (le_trans hdrop hlen')
      · rw [if_neg hc, if_neg hc]
        exact ih m (some c) cs hlen hlen'

theorem runsP_cons (p : Option Char) (c : Char) (l : List Char) :
    runsP p (c :: l) = if c.isAlpha then
        (p, c :: l.takeWhile Char.isAlpha) :: runsP none (l.dropWhile Char.isAlpha)
      else runsP (some c) l := by
  show runsAuxF (l.length + 1) p (c :: l) = _
  simp only [runsAuxF]
  by_cases hc : c.isAlpha
  · rw [if_pos hc, if_pos hc]
    congr 1
    exact runsAuxF_congr l.length (l.dropWhile Char.isAlpha).length none _
      (List.dropWhile_sublist _).length_le le_rfl
  · rw [if_neg hc, if_neg hc]
    rfl

theorem digitChar10_not_alpha {d : ℕ} (h : d < 10) : (digitChar10 d).isAlpha = false := by
  interval_cases d <;> rfl

theorem digitChar10_isDigit {d : ℕ} (h : d < 10) : (digitChar10 d).isDigit = true := by
  interval_cases d <;> rfl

theorem digitsFuel_lt : ∀ (fuel n : ℕ), ∀ d ∈ digitsFuel fuel n, d < 10 := by
  intro fuel
  induction fuel with
  | zero => intro n d hd; simp [digitsFuel] at hd
  | succ m ih =>
    intro n d hd
    simp only [digitsFuel] at hd
    by_cases hn : n = 0
    · rw [if_pos hn] at hd
      simp at hd
    · rw [if_neg hn] at hd
      rcases List.mem_cons.1 hd with h | h
      · rw [h]
        exact Nat.mod_lt _ (by norm_num)
      · exact ih _ d h

theorem natChars_not_alpha (n : ℕ) : ∀ c ∈ natChars n, c.isAlpha = false := by
  intro c hc
  unfold natChars at hc
  by_cases hn : n = 0
  · rw [if_pos hn] at hc
    simp at hc
    rw [hc]
    rfl
  · rw [if_neg hn] at hc
    rcases List.mem_map.1 hc with ⟨d, hd, hdc⟩
    rw [← hdc]
    exact digitChar10_not_alpha (digitsFuel_lt n n d (List.mem_reverse.1 hd))

theorem zeroChars_not_alpha (n : ℕ) : ∀ c ∈ zeroChars n, c.isAlpha = false := by
  intro c hc
  rw [List.eq_of_mem_replicate hc]
  rfl

theorem renderFixed_not_alpha {ds : List ℕ} (hds : ∀ d ∈ ds, d < 10) (E : ℤ) :
    ∀ c ∈ renderFixed ds E, c.isAlpha = false := by
  intro c hc
  unfold renderFixed at hc
  split_ifs at hc
  · rcases List.mem_cons.1 hc with h | h
    · rw [h]; rfl
    rcases List.mem_cons.1 h with h' | h'
    · rw [h']; rfl
    rcases List.mem_append.1 h' with h2 | h2
    · exact zeroChars_not_alpha _ c h2
    · rcases List.mem_map.1 h2 with ⟨d, hd, hdc⟩
      rw [← hdc]
      exact digitChar10_not_alpha (hds d hd)
  · rcases List.mem_append.1 hc with h | h
    · rcases List.mem_map.1 h with ⟨d, hd, hdc⟩
      rw [← hdc]
      exact digitChar10_not_alpha (hds d hd)
    · exact zeroChars_not_alpha _ c h
  · rcases List.mem_append.1 hc with h | h
    · rcases List.mem_map.1 h with ⟨d, hd, hdc⟩
      rw [← hdc]
      exact digitChar10_not_alpha (hds d (List.take_subset _ _ hd))
    rcases List.mem_cons.1 h with h' | h'
    · rw [h']; rfl
    · rcases List.mem_map.1 h' with ⟨d, hd, hdc⟩
      rw [← hdc]
      exact digitChar10_not_alpha (hds d (List.drop_subset _ _ hd))

theorem padExp_not_alpha {l : List Char} (h : ∀ c ∈ l, c.isAlpha = false) :
    ∀ c ∈ padExp l, c.isAlpha = false := by
  intro c hc
  unfold padExp at hc
  split_ifs at hc
  · rcases List.mem_cons.1 hc with h0 | h0
    · rw [h0]; rfl
    · exact h c h0
  · exact h c hc

theorem runsP_skip : ∀ (l₁ : List Char) (p : Option Char) (l₂ : List Char),
    (∀ c ∈ l₁, c.isAlpha = false) → ∃ p', runsP p (l₁ ++ l₂) = runsP p' l₂ := by
  intro l₁
  induction l₁ with
  | nil =>
    intro p l₂ _
    exact ⟨p, rfl⟩
  | cons c cs ih =>
    intro p l₂ h
    rw [List.cons_append, runsP_cons, if_neg (by simp [h c (List.mem_cons_self c cs)])]
    exact ih (some c) l₂ fun d hd => h d (List.mem_cons_of_mem c hd)

theorem goodRun_e {c : Char} (h : c.isDigit = true) : goodRun (some c, ['e']) :=
  Or.inr (Or.inr (Or.inr (Or.inr ⟨rfl, c, rfl, h⟩)))

theorem runsP_renderSci {ds : List ℕ} (hds : ∀ d ∈ ds, d < 10) (E : ℤ)
    (p : Option Char) (rest : List Char) :
    ∃ rs p', runsP p (renderSci ds E ++ rest) = rs ++ runsP p' rest ∧
      ∀ pr ∈ rs, goodRun pr := by
  have hsgn_na : (if E < 0 then '-' else '+').isAlpha = false := by
    split_ifs <;> rfl
  have hpad : ∀ c ∈ padExp (natChars E.natAbs), c.isAlpha = false :=
    padExp_not_alpha (natChars_not_alpha _)
  have tail_runs : ∀ (c : Char), c.isDigit = true →
      ∃ rs p', (runsP (some c)
          ('e' :: (if E < 0 then '-' else '+') :: (padExp (natChars E.natAbs) ++ rest))
        = rs ++ runsP p' rest ∧ ∀ pr ∈ rs, goodRun pr) := by
    intro c hcdig
    obtain ⟨p', hp'⟩ := runsP_skip (padExp (natChars E.natAbs))
      (some (if E < 0 then '-' else '+')) rest hpad
    refine ⟨[(some c, ['e'])], p', ?_, ?_⟩
    · rw [runsP_cons, if_pos (by rfl), List.takeWhile_cons, List.dropWhile_cons,
        if_neg (by simp [hsgn_na]), if_neg (by simp [hsgn_na]),
        runsP_cons, if_neg (by simp [hsgn_na]), hp']
      rfl
    · intro pr hpr
      rw [List.mem_singleton.1 hpr]
      exact goodRun_e hcdig
  match ds, hds with
  | [], _ =>
    show ∃ rs p',
      runsP p (('0' :: 'e' :: (if E < 0 then '-' else '+')
          :: padExp (natChars E.natAbs)) ++ rest) = rs ++ runsP p' rest ∧ _
    simp only [List.cons_append]
    rw [runsP_cons, if_neg (by decide)]
    exact tail_runs '0' rfl
  | [d], hds =>
    show ∃ rs p',
      runsP p ((digitChar10 d :: 'e' :: (if E < 0 then '-' else '+')
          :: padExp (natChars E.natAbs)) ++ rest) = rs ++ runsP p' rest ∧ _
    simp only [List.cons_append]
    rw [runsP_cons, if_neg (by simp [digitChar10_not_alpha (hds d (by simp))])]
    exact tail_runs _ (digitChar10_isDigit (hds d (by simp)))
  | d :: d2 :: tl, hds =>
    obtain ⟨L, b, hLb⟩ : ∃ L b, d2 :: tl = L ++ [b] := by
      rcases List.eq_nil_or_concat (d2 :: tl) with h | ⟨L, b, h⟩
      · exact absurd h (by simp)
      · exact ⟨L, b, by rw [h, List.concat_eq_append]⟩
    have hb : b < 10 := hds b (by rw [hLb]; exact List.mem_cons_of_mem d (by simp))
    show ∃ rs p',
      runsP p ((digitChar10 d :: '.' :: (d2 :: tl).map digitChar10
          ++ 'e' :: (if E < 0 then '-' else '+')
          :: padExp (natChars E.natAbs)) ++ rest) = rs ++ runsP p' rest ∧ _
    rw [hLb, List.map_append]
    have hshape :
        (digitChar10 d :: '.' :: (L.map digitChar10 ++ [b].map digitChar10)
            ++ 'e' :: (if E < 0 then '-' else '+')
            :: padExp (natChars E.natAbs)) ++ rest
        = (digitChar10 d :: '.' :: L.map digitChar10)
          ++ (digitChar10 b
            :: ('e' :: (if E < 0 then '-' else '+')
              :: (padExp (natChars E.natAbs) ++ rest))) := by
      simp [List.append_assoc]
    rw [hshape]
    obtain ⟨p₁, hp₁⟩ := runsP_skip (digitChar10 d :: '.' :: L.map digitChar10) p _ (by
      intro c hc
      rcases List.mem_cons.1 hc with h | h
      · rw [h]
        exact digitChar10_not_alpha (hds d (by simp))
      rcases List.mem_cons.1 h with h2 | h2
      · rw [h2]; rfl
      · rcases List.mem_map.1 h2 with ⟨dd, hdd, hddc⟩
        rw [← hddc]
        exact digitChar10_not_alpha (hds dd (by
          rw [hLb]
          exact List.mem_cons_of_mem d (List.mem_append.2 (Or.inl hdd)))))
    rw [hp₁, runsP_cons, if_neg (by simp [digitChar10_not_alpha hb])]
    exact tail_runs _ (digitChar10_isDigit hb)

theorem gfmt_digits_lt (p : ℕ) (q : ℚ) : ∀ d ∈ (gfmt p q).digits, d < 10 := by
  intro d hd
  unfold gfmt at hd
  by_cases h : q = 0
  · rw [if_pos h] at hd
    simp at hd
    omega
  · rw [if_neg h] at hd
    simp only at hd
    have hmem := List.mem_reverse.1 hd
    exact digitsFuel_lt _ _ d ((List.dropWhile_sublist _).subset hmem)

theorem runsP_fmtNum (q : ℚ) (p : Option Char) (rest : List Char) :
    ∃ rs p', runsP p (fmtNumChars q ++ rest) = rs ++ runsP p' rest ∧
      ∀ pr ∈ rs, goodRun pr := by
  have hds := gfmt_digits_lt 12 q
  unfold fmtNumChars GFmt.render
  rw [List.append_assoc]
  obtain ⟨p₁, hp₁⟩ := runsP_skip (if (gfmt 12 q).neg then ['-'] else []) p _ (by
    intro c hc
    by_cases hn : (gfmt 12 q).neg
    · rw [if_pos hn] at hc
      rw [List.mem_singleton.1 hc]
      rfl
    · rw [if_neg hn] at hc
      simp at hc)
  rw [hp₁]
  by_cases hsci : (gfmt 12 q).sci
  · rw [if_pos hsci]
    exact runsP_renderSci hds _ p₁ rest
  · rw [if_neg hsci]
    obtain ⟨p₂, hp₂⟩ := runsP_skip _ p₁ rest (renderFixed_not_alpha hds _)
    exact ⟨[], p₂, by simpa using hp₂, by simp⟩

theorem runsP_chunk1y (p : Option Char) (rest : List Char) :
    runsP p ("(-".data ++ rest)
      = runsP (some '-') rest := by
  have h : "(-".data = ['(','-'] := rfl
  rw [h]
  simp +decide only [List.cons_append, runsP_cons, List.takeWhile_cons, List.dropWhile_cons,
    List.nil_append, if_true, if_false]

theorem runsP_chunk2x (p : Option Char) (rest : List Char) :
    runsP p ("*cos(t)) - (".data ++ rest)
      = (some '*', ['c','o','s']) :: (some '(', ['t']) :: runsP (some '(') rest := by
  have h : "*cos(t)) - (".data = ['*','c','o','s','(','t',')',')',' ','-',' ','('] := rfl
  rw [h]
  simp +decide only [List.cons_append, runsP_cons, List.takeWhile_cons, List.dropWhile_cons,
    List.nil_append, if_true, if_false]

theorem runsP_chunk2y (p : Option Char) (rest : List Char) :
    runsP p ("*sin(t)) + (".data ++ rest)
      = (some '*', ['s','i','n']) :: (some '(', ['t']) :: runsP (some '(') rest := by
  have h : "*sin(t)) + (".data = ['*','s','i','n','(','t',')',')',' ','+',' ','('] := rfl
  rw [h]
  simp +decide only [List.cons_append, runsP_cons, List.takeWhile_cons, List.dropWhile_cons,
    List.nil_append, if_true, if_false]

theorem runsP_chunk3x (p : Option Char) (rest : List Char) :
    runsP p ("*cos(t+atn(sin(".data ++ rest)
      = (some '*', ['c','o','s']) :: (some '(', ['t']) :: (some '+', ['a','t','n']) :: (some '(', ['s','i','n']) :: runsP (some '(') rest := by
  have h : "*cos(t+atn(sin(".data = ['*','c','o','s','(','t','+','a','t','n','(','s','i','n','('] := rfl
  rw [h]
  simp +decide only [List.cons_append, runsP_cons, List.takeWhile_cons, List.dropWhile_cons,
    List.nil_append, if_true, if_false]

theorem runsP_chunk3y (p : Option Char) (rest : List Char) :
    runsP p ("*sin(t+atn(sin(".data ++ rest)
      = (some '*', ['s','i','n']) :: (some '(', ['t']) :: (some '+', ['a','t','n']) :: (some '(', ['s','i','n']) :: runsP (some '(') rest := by
  have h : "*sin(t+atn(sin(".data = ['*','s','i','n','(','t','+','a','t','n','(','s','i','n','('] := rfl
  rw [h]
  simp +decide only [List.cons_append, runsP_cons, List.takeWhile_cons, List.dropWhile_cons,
    List.nil_append, if_true, if_false]

theorem runsP_chunk4 (p : Option Char) (rest : List Char) :
    runsP p ("*t)/(".data ++ rest)
      = (some '*', ['t']) :: runsP (some '(') rest := by
  have h : "*t)/(".data = ['*','t',')','/','('] := rfl
  rw [h]
  simp +decide only [List.cons_append, runsP_cons, List.takeWhile_cons, List.dropWhile_cons,
    List.nil_append, if_true, if_false]

theorem runsP_chunk5 (p : Option Char) (rest : List Char) :
    runsP p ("-cos(".data ++ rest)
      = (some '-', ['c','o','s']) :: runsP (some '(') rest := by
  have h : "-cos(".data = ['-','c','o','s','('] := rfl
  rw [h]
  simp +decide only [List.cons_append, runsP_cons, List.takeWhile_cons, List.dropWhile_cons,
    List.nil_append, if_true, if_false]

theorem runsP_chunk6x (p : Option Char) (rest : List Char) :
    runsP p ("*t))))) - (".data ++ rest)
      = (some '*', ['t']) :: runsP (some '(') rest := by
  have h : "*t))))) - (".data = ['*','t',')',')',')',')',')',' ','-',' ','('] := rfl
  rw [h]
  simp +decide only [List.cons_append, runsP_cons, List.takeWhile_cons, List.dropWhile_cons,
    List.nil_append, if_true, if_false]

theorem runsP_chunk6y (p : Option Char) (rest : List Char) :
    runsP p ("*t))))) + (".data ++ rest)
      = (some '*', ['t']) :: runsP (some '(') rest := by
  have h : "*t))))) + (".data = ['*','t',')',')',')',')',')',' ','+',' ','('] := rfl
  rw [h]
  simp +decide only [List.cons_append, runsP_cons, List.takeWhile_cons, List.dropWhile_cons,
    List.nil_append, if_true, if_false]

theorem runsP_chunk7x (p : Option Char) (rest : List Char) :
    runsP p ("*cos(".data ++ rest)
      = (some '*', ['c','o','s']) :: runsP (some '(') rest := by
  have h : "*cos(".data = ['*','c','o','s','('] := rfl
  rw [h]
  simp +decide only [List.cons_append, runsP_cons, List.takeWhile_cons, List.dropWhile_cons,
    List.nil_append, if_true, if_false]

theorem runsP_chunk7y (p : Option Char) (rest : List Char) :
    runsP p ("*sin(".data ++ rest)
      = (some '*', ['s','i','n']) :: runsP (some '(') rest := by
  have h : "*sin(".data = ['*','s','i','n','('] := rfl
  rw [h]
  simp +decide only [List.cons_append, runsP_cons, List.takeWhile_cons, List.dropWhile_cons,
    List.nil_append, if_true, if_false]

theorem runsP_chunk8 (p : Option Char) :
    runsP p ("*t))".data) = [(some '*', ['t'])] := by
  have h : "*t))".data = ['*','t',')',')'] := rfl
  rw [h]
  simp +decide only [runsP_cons, List.takeWhile_cons, List.dropWhile_cons,
    List.takeWhile_nil, List.dropWhile_nil, if_true, if_false]

theorem intChars_not_alpha (n : ℤ) : ∀ c ∈ intChars n, c.isAlpha = false := by
  intro c hc
  unfold intChars at hc
  rcases List.mem_append.1 hc with h | h
  · by_cases hn : n < 0
    · rw [if_pos hn] at h
      rw [List.mem_singleton.1 h]
      rfl
    · rw [if_neg hn] at h
      simp at h
  · exact natChars_not_alpha _ c h

theorem runsP_intChars (n : ℤ) (p : Option Char) (rest : List Char) :
    ∃ p', runsP p (intChars n ++ rest) = runsP p' rest :=
  runsP_skip _ p rest (intChars_not_alpha n)

theorem runsP_chunk1x (p : Option Char) (rest : List Char) :
    runsP p ("(".data ++ rest) = runsP (some '(') rest := by
  have h : "(".data = ['('] := rfl
  rw [h]
  simp +decide only [List.cons_append, List.nil_append, runsP_cons, if_true, if_false]

theorem xExpr_runs (R_p e r : ℚ) (N : ℤ) :
    ∃ rs₁ rs₂ rs₃ rs₄ rs₅ rs₆,
      letterRuns (xExprChars R_p e r N)
        = rs₁ ++ ((some '*', ['c','o','s']) :: (some '(', ['t'])
          :: (rs₂ ++ ((some '*', ['c','o','s']) :: (some '(', ['t'])
            :: (some '+', ['a','t','n']) :: (some '(', ['s','i','n'])
          :: (rs₃ ++ ((some '*', ['t'])
          :: (rs₄ ++ ((some '-', ['c','o','s'])
          :: (rs₅ ++ ((some '*', ['t'])
          :: (rs₆ ++ ((some '*', ['c','o','s'])
          :: [(some '*', ['t'])]))))))))))) ∧
      (∀ pr ∈ rs₁, goodRun pr) ∧
      (∀ pr ∈ rs₂, goodRun pr) ∧
      (∀ pr ∈ rs₃, goodRun pr) ∧
      (∀ pr ∈ rs₄, goodRun pr) ∧
      (∀ pr ∈ rs₅, goodRun pr) ∧
      (∀ pr ∈ rs₆, goodRun pr) := by
  obtain ⟨rs₁, p₁, h₁, g₁⟩ := runsP_fmtNum R_p (some '(') ("*cos(t)) - (".data ++ (fmtNumChars r ++ ("*cos(t+atn(sin(".data ++ (fmtNumChars ((1 - N : ℤ) : ℚ) ++ ("*t)/(".data ++ (fmtNumChars (R_p / (e * N)) ++ ("-cos(".data ++ (fmtNumChars ((1 - N : ℤ) : ℚ) ++ ("*t))))) - (".data ++ (fmtNumChars e ++ ("*cos(".data ++ (intChars N ++ ("*t))".data)))))))))))))
  obtain ⟨rs₂, p₂, h₂, g₂⟩ := runsP_fmtNum r (some '(') ("*cos(t+atn(sin(".data ++ (fmtNumChars ((1 - N : ℤ) : ℚ) ++ ("*t)/(".data ++ (fmtNumChars (R_p / (e * N)) ++ ("-cos(".data ++ (fmtNumChars ((1 - N : ℤ) : ℚ) ++ ("*t))))) - (".data ++ (fmtNumChars e ++ ("*cos(".data ++ (intChars N ++ ("*t))".data)))))))))))
  obtain ⟨rs₃, p₃, h₃, g₃⟩ := runsP_fmtNum ((1 - N : ℤ) : ℚ) (some '(') ("*t)/(".data ++ (fmtNumChars (R_p / (e * N)) ++ ("-cos(".data ++ (fmtNumChars ((1 - N : ℤ) : ℚ) ++ ("*t))))) - (".data ++ (fmtNumChars e ++ ("*cos(".data ++ (intChars N ++ ("*t))".data)))))))))
  obtain ⟨rs₄, p₄, h₄, g₄⟩ := runsP_fmtNum (R_p / (e * N)) (some '(') ("-cos(".data ++ (fmtNumChars ((1 - N : ℤ) : ℚ) ++ ("*t))))) - (".data ++ (fmtNumChars e ++ ("*cos(".data ++ (intChars N ++ ("*t))".data)))))))
  obtain ⟨rs₅, p₅, h₅, g₅⟩ := runsP_fmtNum ((1 - N : ℤ) : ℚ) (some '(') ("*t))))) - (".data ++ (fmtNumChars e ++ ("*cos(".data ++ (intChars N ++ ("*t))".data)))))
  obtain ⟨rs₆, p₆, h₆, g₆⟩ := runsP_fmtNum e (some '(') ("*cos(".data ++ (intChars N ++ ("*t))".data)))
  obtain ⟨pI, hI⟩ := runsP_intChars N (some '(') ("*t))".data)
  refine ⟨rs₁, rs₂, rs₃, rs₄, rs₅, rs₆, ?_, g₁, g₂, g₃, g₄, g₅, g₆⟩
  show runsP none (xExprChars R_p e r N) = _
  rw [show xExprChars R_p e r N = "(".data ++ (fmtNumChars R_p ++ ("*cos(t)) - (".data ++ (fmtNumChars r ++ ("*cos(t+atn(sin(".data ++ (fmtNumChars ((1 - N : ℤ) : ℚ) ++ ("*t)/(".data ++ (fmtNumChars (R_p / (e * N)) ++ ("-cos(".data ++ (fmtNumChars ((1 - N : ℤ) : ℚ) ++ ("*t))))) - (".data ++ (fmtNumChars e ++ ("*cos(".data ++ (intChars N ++ ("*t))".data)))))))))))))) from rfl]
  rw [runsP_chunk1x, h₁, runsP_chunk2x, h₂, runsP_chunk3x, h₃, runsP_chunk4, h₄,
    runsP_chunk5, h₅, runsP_chunk6x, h₆, runsP_chunk7x, hI, runsP_chunk8]

theorem yExpr_runs (R_p e r : ℚ) (N : ℤ) :
    ∃ rs₁ rs₂ rs₃ rs₄ rs₅ rs₆,
      letterRuns (yExprChars R_p e r N)
        = rs₁ ++ ((some '*', ['s','i','n']) :: (some '(', ['t'])
          :: (rs₂ ++ ((some '*', ['s','i','n']) :: (some '(', ['t'])
            :: (some '+', ['a','t','n']) :: (some '(', ['s','i','n'])
          :: (rs₃ ++ ((some '*', ['t'])
          :: (rs₄ ++ ((some '-', ['c','o','s'])
          :: (rs₅ ++ ((some '*', ['t'])
          :: (rs₆ ++ ((some '*', ['s','i','n'])
          :: [(some '*', ['t'])]))))))))))) ∧
      (∀ pr ∈ rs₁, goodRun pr) ∧
      (∀ pr ∈ rs₂, goodRun pr) ∧
      (∀ pr ∈ rs₃, goodRun pr) ∧
      (∀ pr ∈ rs₄, goodRun pr) ∧
      (∀ pr ∈ rs₅, goodRun pr) ∧
      (∀ pr ∈ rs₆, goodRun pr) := by
  obtain ⟨rs₁, p₁, h₁, g₁⟩ := runsP_fmtNum R_p (some '-') ("*sin(t)) + (".data ++ (fmtNumChars r ++ ("*sin(t+atn(sin(".data ++ (fmtNumChars ((1 - N : ℤ) : ℚ) ++ ("*t)/(".data ++ (fmtNumChars (R_p / (e * N)) ++ ("-cos(".data ++ (fmtNumChars ((1 - N : ℤ) : ℚ) ++ ("*t))))) + (".data ++ (fmtNumChars e ++ ("*sin(".data ++ (intChars N ++ ("*t))".data)))))))))))))
  obtain ⟨rs₂, p₂, h₂, g₂⟩ := runsP_fmtNum r (some '(') ("*sin(t+atn(sin(".data ++ (fmtNumChars ((1 - N : ℤ) : ℚ) ++ ("*t)/(".data ++ (fmtNumChars (R_p / (e * N)) ++ ("-cos(".data ++ (fmtNumChars ((1 - N : ℤ) : ℚ) ++ ("*t))))) + (".data ++ (fmtNumChars e ++ ("*sin(".data ++ (intChars N ++ ("*t))".data)))))))))))
  obtain ⟨rs₃, p₃, h₃, g₃⟩ := runsP_fmtNum ((1 - N : ℤ) : ℚ) (some '(') ("*t)/(".data ++ (fmtNumChars (R_p / (e * N)) ++ ("-cos(".data ++ (fmtNumChars ((1 - N : ℤ) : ℚ) ++ ("*t))))) + (".data ++ (fmtNumChars e ++ ("*sin(".data ++ (intChars N ++ ("*t))".data)))))))))
  obtain ⟨rs₄, p₄, h₄, g₄⟩ := runsP_fmtNum (R_p / (e * N)) (some '(') ("-cos(".data ++ (fmtNumChars ((1 - N : ℤ) : ℚ) ++ ("*t))))) + (".data ++ (fmtNumChars e ++ ("*sin(".data ++ (intChars N ++ ("*t))".data)))))))
  obtain ⟨rs₅, p₅, h₅, g₅⟩ := runsP_fmtNum ((1 - N : ℤ) : ℚ) (some '(') ("*t))))) + (".data ++ (fmtNumChars e ++ ("*sin(".data ++ (intChars N ++ ("*t))".data)))))
  obtain ⟨rs₆, p₆, h₆, g₆⟩ := runsP_fmtNum e (some '(') ("*sin(".data ++ (intChars N ++ ("*t))".data)))
  obtain ⟨pI, hI⟩ := runsP_intChars N (some '(') ("*t))".data)
  refine ⟨rs₁, rs₂, rs₃, rs₄, rs₅, rs₆, ?_, g₁, g₂, g₃, g₄, g₅, g₆⟩
  show runsP none (yExprChars R_p e r N) = _
  rw [show yExprChars R_p e r N = "(-".data ++ (fmtNumChars R_p ++ ("*sin(t)) + (".data ++ (fmtNumChars r ++ ("*sin(t+atn(sin(".data ++ (fmtNumChars ((1 - N : ℤ) : ℚ) ++ ("*t)/(".data ++ (fmtNumChars (R_p / (e * N)) ++ ("-cos(".data ++ (fmtNumChars ((1 - N : ℤ) : ℚ) ++ ("*t))))) + (".data ++ (fmtNumChars e ++ ("*sin(".data ++ (intChars N ++ ("*t))".data)))))))))))))) from rfl]
  rw [runsP_chunk1y, h₁, runsP_chunk2y, h₂, runsP_chunk3y, h₃, runsP_chunk4, h₄,
    runsP_chunk5, h₅, runsP_chunk6y, h₆, runsP_chunk7y, hI, runsP_chunk8]

theorem goodRun_t (p : Option Char) : goodRun (p, ['t']) := Or.inl rfl

theorem goodRun_cos (p : Option Char) : goodRun (p, ['c','o','s']) := Or.inr (Or.inl rfl)

theorem goodRun_sin (p : Option Char) : goodRun (p, ['s','i','n']) :=
  Or.inr (Or.inr (Or.inl rfl))

theorem goodRun_atn (p : Option Char) : goodRun (p, ['a','t','n']) :=
  Or.inr (Or.inr (Or.inr (Or.inl rfl)))

theorem goodRuns_append {l₁ l₂ : List (Option Char × List Char)}
    (h₁ : ∀ pr ∈ l₁, goodRun pr) (h₂ : ∀ pr ∈ l₂, goodRun pr) :
    ∀ pr ∈ l₁ ++ l₂, goodRun pr := by
  intro pr hpr
  rcases List.mem_append.1 hpr with h | h
  · exact h₁ pr h
  · exact h₂ pr h

theorem goodRuns_cons {a : Option Char × List Char} {l : List (Option Char × List Char)}
    (ha : goodRun a) (h : ∀ pr ∈ l, goodRun pr) : ∀ pr ∈ a :: l, goodRun pr := by
  intro pr hpr
  rcases List.mem_cons.1 hpr with h' | h'
  · rw [h']
    exact ha
  · exact h pr h'

theorem goodRuns_single {a : Option Char × List Char} (ha : goodRun a) :
    ∀ pr ∈ [a], goodRun pr := by
  intro pr hpr
  rw [List.mem_singleton.1 hpr]
  exact ha

theorem renderSci_mem {ds : List ℕ} (hds : ∀ d ∈ ds, d < 10) (E : ℤ) :
    ∀ c ∈ renderSci ds E, c = 'e' ∨ c.isAlpha = false := by
  intro c hc
  unfold renderSci at hc
  rcases List.mem_append.1 hc with h | h
  · right
    match ds, hds, h with
    | [], _, h =>
      simp at h
      rw [h]
      rfl
    | d :: tl, hds, h =>
      rcases List.mem_cons.1 h with h1 | h1
      · rw [h1]
        exact digitChar10_not_alpha (hds d (by simp))
      · by_cases htl : tl = []
        · rw [if_pos htl] at h1
          simp at h1
        · rw [if_neg htl] at h1
          rcases List.mem_cons.1 h1 with h2 | h2
          · rw [h2]
            rfl
          · rcases List.mem_map.1 h2 with ⟨dd, hdd, hddc⟩
            rw [← hddc]
            exact digitChar10_not_alpha (hds dd (List.mem_cons_of_mem d hdd))
  · rcases List.mem_cons.1 h with h1 | h1
    · left
      exact h1
    right
    rcases List.mem_cons.1 h1 with h2 | h2
    · rw [h2]
      split_ifs <;> rfl
    · exact padExp_not_alpha (natChars_not_alpha _) c h2

theorem fmtNumChars_no_a (q : ℚ) : 'a' ∉ fmtNumChars q := by
  intro h
  unfold fmtNumChars GFmt.render at h
  rcases List.mem_append.1 h with h1 | h1
  · by_cases hn : (gfmt 12 q).neg
    · rw [if_pos hn] at h1
      simp at h1
    · rw [if_neg hn] at h1
      simp at h1
  · by_cases hs : (gfmt 12 q).sci
    · rw [if_pos hs] at h1
      rcases renderSci_mem (gfmt_digits_lt 12 q) _ 'a' h1 with h2 | h2
      · exact absurd h2 (by decide)
      · exact absurd h2 (by decide)
    · rw [if_neg hs] at h1
      exact absurd (renderFixed_not_alpha (gfmt_digits_lt 12 q) _ 'a' h1) (by decide)

theorem intChars_no_a (n : ℤ) : 'a' ∉ intChars n := by
  intro h
  exact absurd (intChars_not_alpha n 'a' h) (by decide)

theorem count_a_xExpr (R_p e r : ℚ) (N : ℤ) : (xExprChars R_p e r N).count 'a' = 1 := by
  unfold xExprChars
  simp only [List.count_append]
  rw [List.count_eq_zero.2 (fmtNumChars_no_a R_p), List.count_eq_zero.2 (fmtNumChars_no_a r),
    List.count_eq_zero.2 (fmtNumChars_no_a ((1 - N : ℤ) : ℚ)),
    List.count_eq_zero.2 (fmtNumChars_no_a (R_p / (e * N))),
    List.count_eq_zero.2 (fmtNumChars_no_a e), List.count_eq_zero.2 (intChars_no_a N)]
  decide

theorem count_a_yExpr (R_p e r : ℚ) (N : ℤ) : (yExprChars R_p e r N).count 'a' = 1 := by
  unfold yExprChars
  simp only [List.count_append]
  rw [List.count_eq_zero.2 (fmtNumChars_no_a R_p), List.count_eq_zero.2 (fmtNumChars_no_a r),
    List.count_eq_zero.2 (fmtNumChars_no_a ((1 - N : ℤ) : ℚ)),
    List.count_eq_zero.2 (fmtNumChars_no_a (R_p / (e * N))),
    List.count_eq_zero.2 (fmtNumChars_no_a e), List.count_eq_zero.2 (intChars_no_a N)]
  decide

theorem infix_append_right (l₁ : List Char) {l l₂ : List Char} (h : l <:+: l₂) :
    l <:+: l₁ ++ l₂ :=
  h.trans (List.suffix_append l₁ l₂).isInfix

theorem infix_append_left {l l₁ : List Char} (l₂ : List Char) (h : l <:+: l₁) :
    l <:+: l₁ ++ l₂ :=
  h.trans (List.prefix_append l₁ l₂).isInfix

theorem atn_infix_x (R_p e r : ℚ) (N : ℤ) : ['a','t','n'] <:+: xExprChars R_p e r N := by
  unfold xExprChars
  refine infix_append_right _ (infix_append_right _ (infix_append_right _
    (infix_append_right _ (infix_append_left _ ?_))))
  exact ⟨"*cos(t+".data, "(sin(".data, rfl⟩

theorem atn_infix_y (R_p e r : ℚ) (N : ℤ) : ['a','t','n'] <:+: yExprChars R_p e r N := by
  unfold yExprChars
  refine infix_append_right _ (infix_append_right _ (infix_append_right _
    (infix_append_right _ (infix_append_left _ ?_))))
  exact ⟨"*sin(t+".data, "(sin(".data, rfl⟩

theorem no_atan_x (R_p e r : ℚ) (N : ℤ) : ¬ ['a','t','a','n'] <:+: xExprChars R_p e r N := by
  intro h
  have hc := h.sublist.count_le 'a'
  rw [count_a_xExpr] at hc
  simp at hc

theorem no_atan_y (R_p e r : ℚ) (N : ℤ) : ¬ ['a','t','a','n'] <:+: yExprChars R_p e r N := by
  intro h
  have hc := h.sublist.count_le 'a'
  rw [count_a_yExpr] at hc
  simp at hc

/-- C3: for every valid parameter set, both strings returned by
`make_sw_equations` use `t` as their only free symbol besides numeric
literals and the functions `cos`, `sin`, `atn`: every maximal alphabetic
run of either string is one of the identifiers `t`, `cos`, `sin`, `atn`
or a numeric literal's exponent marker `e` immediately preceded by a
digit; a lone `t` run does occur; the arctangent is spelled with the
three-letter name `atn` (an infix of both strings); and the substring
`atan` occurs in neither string. -/
theorem C3_only_t_atn_no_atan (R_p e r : ℚ) (N : ℤ)
    (_hRp : 0 < R_p) (_he : 0 < e) (_hr : 0 < r) (_hN : 2 ≤ N) :
    ((∀ pr ∈ letterRuns (make_sw_equations R_p e r N).1.data, goodRun pr) ∧
      (some '(', ['t']) ∈ letterRuns (make_sw_equations R_p e r N).1.data ∧
      ['a','t','n'] <:+: (make_sw_equations R_p e r N).1.data ∧
      ¬ ['a','t','a','n'] <:+: (make_sw_equations R_p e r N).1.data) ∧
    ((∀ pr ∈ letterRuns (make_sw_equations R_p e r N).2.data, goodRun pr) ∧
      (some '(', ['t']) ∈ letterRuns (make_sw_equations R_p e r N).2.data ∧
      ['a','t','n'] <:+: (make_sw_equations R_p e r N).2.data ∧
      ¬ ['a','t','a','n'] <:+: (make_sw_equations R_p e r N).2.data) := by
  have hxd : (make_sw_equations R_p e r N).1.data = xExprChars R_p e r N := rfl
  have hyd : (make_sw_equations R_p e r N).2.data = yExprChars R_p e r N := rfl
  rw [hxd, hyd]
  obtain ⟨rs₁, rs₂, rs₃, rs₄, rs₅, rs₆, hx, g₁, g₂, g₃, g₄, g₅, g₆⟩ := xExpr_runs R_p e r N
  obtain ⟨qs₁, qs₂, qs₃, qs₄, qs₅, qs₆, hy, k₁, k₂, k₃, k₄, k₅, k₆⟩ := yExpr_runs R_p e r N
  refine ⟨⟨?_, ?_, atn_infix_x R_p e r N, no_atan_x R_p e r N⟩,
    ⟨?_, ?_, atn_infix_y R_p e r N, no_atan_y R_p e r N⟩⟩
  · rw [hx]
    exact goodRuns_append g₁ (goodRuns_cons (goodRun_cos _) (goodRuns_cons (goodRun_t _)
      (goodRuns_append g₂ (goodRuns_cons (goodRun_cos _) (goodRuns_cons (goodRun_t _)
      (goodRuns_cons (goodRun_atn _) (goodRuns_cons (goodRun_sin _)
      (goodRuns_append g₃ (goodRuns_cons (goodRun_t _)
      (goodRuns_append g₄ (goodRuns_cons (goodRun_cos _)
      (goodRuns_append g₅ (goodRuns_cons (goodRun_t _)
      (goodRuns_append g₆ (goodRuns_cons (goodRun_cos _)
      (goodRuns_single (goodRun_t _)))))))))))))))))
  · rw [hx]
    exact List.mem_append_right _ (by simp)
  · rw [hy]
    exact goodRuns_append k₁ (goodRuns_cons (goodRun_sin _) (goodRuns_cons (goodRun_t _)
      (goodRuns_append k₂ (goodRuns_cons (goodRun_sin _) (goodRuns_cons (goodRun_t _)
      (goodRuns_cons (goodRun_atn _) (goodRuns_cons (goodRun_sin _)
      (goodRuns_append k₃ (goodRuns_cons (goodRun_t _)
      (goodRuns_append k₄ (goodRuns_cons (goodRun_cos _)
      (goodRuns_append k₅ (goodRuns_cons (goodRun_t _)
      (goodRuns_append k₆ (goodRuns_cons (goodRun_sin _)
      (goodRuns_single (goodRun_t _)))))))))))))))))
  · rw [hy]
    exact List.mem_append_right _ (by simp)

/-- Witness for the C3 theorem at the app defaults `R_p = 50`, `e = 2.5`,
`r = 2`, `N = 10`. -/
theorem C3_witness :
    ((0 : ℚ) < 50 ∧ (0 : ℚ) < 5/2 ∧ (0 : ℚ) < 2 ∧ (2 : ℤ) ≤ 10) ∧
    (((∀ pr ∈ letterRuns (make_sw_equations 50 (5/2) 2 10).1.data, goodRun pr) ∧
      (some '(', ['t']) ∈ letterRuns (make_sw_equations 50 (5/2) 2 10).1.data ∧
      ['a','t','n'] <:+: (make_sw_equations 50 (5/2) 2 10).1.data ∧
      ¬ ['a','t','a','n'] <:+: (make_sw_equations 50 (5/2) 2 10).1.data) ∧
     ((∀ pr ∈ letterRuns (make_sw_equations 50 (5/2) 2 10).2.data, goodRun pr) ∧
      (some '(', ['t']) ∈ letterRuns (make_sw_equations 50 (5/2) 2 10).2.data ∧
      ['a','t','n'] <:+: (make_sw_equations 50 (5/2) 2 10).2.data ∧
      ¬ ['a','t','a','n'] <:+: (make_sw_equations 50 (5/2) 2 10).2.data)) :=
  ⟨⟨by norm_num, by norm_num, by norm_num, by norm_num⟩,
    C3_only_t_atn_no_atan 50 (5/2) 2 10 (by norm_num) (by norm_num) (by norm_num)
      (by norm_num)⟩

end

end DiskGen
